import Mathlib

/-!
Verification development for the attachment download job manager of this
repository: the retry/backoff policy, the job runner's variant-selection
policy, and the manager's scheduling loop.  The manager and runner
implementation file is not part of the source tree here (only its test
suite, `ts/test-electron/services/AttachmentDownloadManager_test.ts`, is),
so the definitions below are modelled from the specification and checked
for consistency with the behaviours the test suite pins down.
-/

set_option linter.unnecessarySeqFocus false
set_option linter.unusedVariables false

namespace AttachmentDownload

/-! ## Retry/backoff policy -/

/-- Modelled from the spec: `backoffConfig = { multiplier, firstBackoffs, maxBackoffTime }`
(the manager/runner source file is missing from the tree; §4.2 of the spec). -/
structure BackoffConfig where
  multiplier : Nat
  firstBackoffs : List Nat
  maxBackoffTime : Nat
deriving DecidableEq, Repr

/-- Modelled from the spec: `nextRetryDelay(attempts, config)` (§4.2; the
manager source is missing from the tree).  For `attempts <= firstBackoffs.length`
return `firstBackoffs[attempts-1]`; beyond that, multiply the last backoff by
`multiplier` repeatedly, capped at `maxBackoffTime`. -/
def nextRetryDelay (cfg : BackoffConfig) (attempts : Nat) : Nat :=
  if attempts ≤ cfg.firstBackoffs.length then
    cfg.firstBackoffs.getD (attempts - 1) 0
  else
    min cfg.maxBackoffTime
      (cfg.firstBackoffs.getLastD 0 * cfg.multiplier ^ (attempts - cfg.firstBackoffs.length))

/-- Modelled from the spec: retry configuration `{ maxAttempts, backoffConfig }`
(§4.2, §6; the manager source is missing from the tree). -/
structure RetryConfig where
  maxAttempts : Nat
  backoffConfig : BackoffConfig
deriving DecidableEq, Repr

/-! ## Attachment data model -/

/-- Modelled from the spec: the backup locator attached to an attachment
descriptor (the attachment type source is missing from the tree; the test
suite constructs it as `{ mediaName }`). -/
structure BackupLocator where
  mediaName : String
deriving DecidableEq, Repr

/-- Modelled from the spec: the downloader's result descriptor
`{ path, iv, plaintextHash }` (§6 of the spec). -/
structure DownloadedAttachment where
  path : String
  iv : String
  plaintextHash : String
deriving DecidableEq, Repr

/-- Modelled from the spec: the embedded attachment descriptor of a job
(content type, size, digest, optional backup locator, optional pre-existing
thumbnail; §3), plus the download descriptor fields merged in on a full
download (§4.3). -/
structure Attachment where
  contentType : String
  size : Nat
  digest : String
  backupLocator : Option BackupLocator := none
  thumbnailFromBackup : Option DownloadedAttachment := none
  path : Option String := none
  iv : Option String := none
  plaintextHash : Option String := none
deriving DecidableEq, Repr

/-- The two download variants of §6. -/
inductive AttachmentVariant where
  | Default
  | ThumbnailFromBackup
deriving DecidableEq, Repr

/-- A downloader collaborator: maps a requested variant to a downloaded
descriptor or a thrown error (§6). -/
def Downloader : Type := AttachmentVariant → Except String DownloadedAttachment

/-- Modelled from the spec: the runner's successful outcome — either a
thumbnail-only success (flagged `onlyAttemptedBackupThumbnail = true`), a
full-resolution download, or a thumbnail obtained as fallback after a failed
full download (§4.3). -/
inductive RunOutcome where
  | thumbnailOnly (attachmentWithThumbnail : Attachment)
  | fullDownloaded (attachment : Attachment)
  | thumbnailFallback (attachment : Attachment)
deriving DecidableEq, Repr

/-- The `onlyAttemptedBackupThumbnail` flag of a runner outcome (§4.3). -/
def RunOutcome.onlyAttemptedBackupThumbnail : RunOutcome → Bool
  | .thumbnailOnly _ => true
  | .fullDownloaded _ => false
  | .thumbnailFallback _ => false

/-- The attachment-with-thumbnail reported by a thumbnail-only success. -/
def RunOutcome.attachmentWithThumbnailOf : RunOutcome → Option Attachment
  | .thumbnailOnly a => some a
  | .fullDownloaded _ => none
  | .thumbnailFallback _ => none

/-- Merging a full-resolution download descriptor back into the attachment
record (§4.3: "returns a descriptor (path, IV, plaintext hash) merged back
into the attachment record"). -/
def mergeDownload (att : Attachment) (d : DownloadedAttachment) : Attachment :=
  { att with path := some d.path, iv := some d.iv, plaintextHash := some d.plaintextHash }

/-- Modelled from the spec: `runDownloadAttachmentJobInner` (§4.3; the
runner source is missing from the tree).  Returns the runner's outcome (or
the propagated error) together with the ordered list of downloader calls it
made.  Policy: for a currently-visible message with a backup locator and no
previously-fetched thumbnail, fetch the thumbnail variant first and stop on
success; if the thumbnail fetch fails, fall through to the Default variant.
In every other case fetch the Default variant first; on failure, fall back
to the thumbnail variant only when the message is not visible and a backup
locator exists. -/
def runDownloadAttachmentJobInner (dl : Downloader)
    (isForCurrentlyVisibleMessage : Bool) (att : Attachment) :
    Except String RunOutcome × List AttachmentVariant :=
  if isForCurrentlyVisibleMessage && att.backupLocator.isSome
      && att.thumbnailFromBackup.isNone then
    match dl AttachmentVariant.ThumbnailFromBackup with
    | Except.ok d =>
        (Except.ok (RunOutcome.thumbnailOnly { att with thumbnailFromBackup := some d }),
         [AttachmentVariant.ThumbnailFromBackup])
    | Except.error _ =>
        match dl AttachmentVariant.Default with
        | Except.ok d =>
            (Except.ok (RunOutcome.fullDownloaded (mergeDownload att d)),
             [AttachmentVariant.ThumbnailFromBackup, AttachmentVariant.Default])
        | Except.error e =>
            (Except.error e,
             [AttachmentVariant.ThumbnailFromBackup, AttachmentVariant.Default])
  else
    match dl AttachmentVariant.Default with
    | Except.ok d =>
        (Except.ok (RunOutcome.fullDownloaded (mergeDownload att d)),
         [AttachmentVariant.Default])
    | Except.error e =>
        if !isForCurrentlyVisibleMessage && att.backupLocator.isSome then
          match dl AttachmentVariant.ThumbnailFromBackup with
          | Except.ok d =>
              (Except.ok (RunOutcome.thumbnailFallback
                  { att with thumbnailFromBackup := some d }),
               [AttachmentVariant.Default, AttachmentVariant.ThumbnailFromBackup])
          | Except.error e2 =>
              (Except.error e2,
               [AttachmentVariant.Default, AttachmentVariant.ThumbnailFromBackup])
        else
          (Except.error e, [AttachmentVariant.Default])

/-! ## Job data model -/

/-- The composite job identity of §3: (message identifier, attachment type
tag, content digest), unique across all pending jobs. -/
structure JobIdent where
  messageId : String
  attachmentType : String
  digest : String
deriving DecidableEq, Repr

/-- Modelled from the spec: one persisted job row (§3; the job type source
is missing from the tree).  The test suite constructs rows with exactly
these fields. -/
structure Job where
  messageId : String
  attachmentType : String
  digest : String
  receivedAt : Nat
  sentAt : Nat
  active : Bool
  attempts : Nat
  retryAfter : Option Nat
  lastAttemptTimestamp : Option Nat
  attachment : Attachment
deriving DecidableEq, Repr

/-- The composite identity of a job row. -/
def Job.ident (j : Job) : JobIdent :=
  ⟨j.messageId, j.attachmentType, j.digest⟩

/-- A job's `retryAfter` is null or has elapsed at time `now` (§4.1). -/
def retryElapsed (j : Job) (now : Nat) : Bool :=
  match j.retryAfter with
  | none => true
  | some t => t ≤ now

/-- The runner's report to the manager: terminal success or retry (§4.4). -/
inductive JobStatus where
  | finished
  | retry
deriving DecidableEq, Repr

/-! ## Priority ordering (§4.4 step 4) -/

/-- Whether a job's message is in the visible set. -/
def isVisible (vis : List String) (j : Job) : Bool :=
  decide (j.messageId ∈ vis)

/-- Modelled from the spec: the store's priority comparator (§4.4 step 4;
the manager source is missing from the tree).  Jobs whose message id is in
the visible set sort before all others.  Within the non-visible partition
the order is descending `receivedAt` (newest first).  Within the visible
partition the order is ascending `receivedAt` (oldest first): the test
suite (`prefers jobs for visible messages`) pins this order, dispatching
the visible jobs `message-0` (receivedAt 0) before `message-1`
(receivedAt 1), contrary to the spec's "descending receivedAt" wording for
both partitions. -/
def prioLe (vis : List String) (a b : Job) : Bool :=
  if isVisible vis a = isVisible vis b then
    if isVisible vis a then decide (a.receivedAt ≤ b.receivedAt)
    else decide (b.receivedAt ≤ a.receivedAt)
  else isVisible vis a

/-- The priority order as a relation. -/
def JobPrio (vis : List String) (a b : Job) : Prop :=
  prioLe vis a b = true

instance (vis : List String) : DecidableRel (JobPrio vis) :=
  fun a b => instDecidableEqBool (prioLe vis a b) true

/-- Sort a list of jobs by the priority comparator (a stable sort,
modelling the store's ordered query of §4.1). -/
def sortByPrio (vis : List String) (l : List Job) : List Job :=
  l.insertionSort (JobPrio vis)

/-! ## Manager state and scheduling loop -/

/-- A dispatch-log entry: the job row snapshot handed to the runner and the
tick time at which it was dispatched. -/
structure TraceEntry where
  job : Job
  time : Nat
deriving DecidableEq, Repr

/-- A completion-log entry: the (identity, attempts) pair whose
`waitForJobToBeCompleted` future is resolved when the attempt's completion
handling runs (§4.4 step 6, §7). -/
structure CompletionEntry where
  ident : JobIdent
  attempts : Nat
deriving DecidableEq, Repr

/-- Modelled from the spec: the manager's collaborators and configuration
(§4.4, §6; the manager source is missing from the tree).  The call-state
predicate is a function of the current tick time; the runner is modelled as
a deterministic oracle reporting `finished` or `retry` for a dispatched job
snapshot, resolving before the next tick (as in the test suite, where the
stubbed runner resolves on a microtask). -/
structure ManagerParams where
  maxConcurrentJobs : Nat
  retryConfig : RetryConfig
  shouldHoldOffOnStartingQueuedJobs : Nat → Bool
  runJob : Job → JobStatus

/-- Modelled from the spec: the manager's state — the persistent store's
rows, the visible set, the clock, the dispatch log and the completion log
(§3, §4.4; the manager source is missing from the tree).  One time unit is
one scheduling tick. -/
structure ManagerState where
  store : List Job
  visibleSet : List String
  now : Nat
  trace : List TraceEntry
  completions : List CompletionEntry

/-- An initial manager state: a store, a visible set, a start time, and
empty logs. -/
def initState (store : List Job) (vis : List String) (now : Nat) : ManagerState :=
  ⟨store, vis, now, [], []⟩

/-- `removeJob(identity)` of the store contract (§4.1). -/
def removeJobRow (store : List Job) (i : JobIdent) : List Job :=
  store.filter (fun r => decide (r.ident ≠ i))

/-- `markJobActive(identity, active)` of the store contract (§4.1). -/
def markActive (store : List Job) (i : JobIdent) (b : Bool) : List Job :=
  store.map (fun r => if r.ident = i then { r with active := b } else r)

/-- Replace the row sharing `i`'s identity by `row` (persisting an updated
row, §4.4 step 6). -/
def updateRow (store : List Job) (i : JobIdent) (row : Job) : List Job :=
  store.map (fun r => if r.ident = i then row else r)

/-- A job row reset for (re-)insertion: `attempts`, `active`, `retryAfter`
cleared (§4.1 `upsertJob`). -/
def resetJob (j : Job) : Job :=
  { j with attempts := 0, active := false, retryAfter := none }

/-- `upsertJob(job)` of the store contract (§4.1): insert a new row, or
overwrite an existing row sharing the same identity, resetting `attempts`,
`active` and `retryAfter`. -/
def upsertJob (store : List Job) (j : Job) : List Job :=
  if store.any (fun r => decide (r.ident = j.ident)) then
    store.map (fun r => if r.ident = j.ident then resetJob j else r)
  else
    store ++ [resetJob j]

/-- The store rows currently marked active. -/
def activeRows (store : List Job) : List Job :=
  store.filter (fun r => r.active)

/-- The store's eligible rows at time `now`: not active, `retryAfter` null
or elapsed (§4.1 `getNextJobs`, §4.4 step 4). -/
def eligibleRows (store : List Job) (now : Nat) : List Job :=
  store.filter (fun r => !r.active && retryElapsed r now)

/-- Mark a job active and log its dispatch (§4.4 step 5; this is also the
point at which `waitForJobToBeStarted` futures resolve). -/
def startJob (st : ManagerState) (j : Job) : ManagerState :=
  { st with
    store := markActive st.store j.ident true
    trace := st.trace ++ [⟨j, st.now⟩] }

/-- Completion handling for one dispatched job (§4.4 step 6): on terminal
success remove the row; on "retry" increment `attempts` and either remove
the row (max attempts reached — dropped) or persist the updated row with
the new `retryAfter`.  In all cases the attempt's completion futures
resolve (§7), recorded in the completion log under the attempts value the
row had when dispatched. -/
def handleJobResult (p : ManagerParams) (st : ManagerState) (j : Job) : ManagerState :=
  match p.runJob j with
  | JobStatus.finished =>
      { st with
        store := removeJobRow st.store j.ident
        completions := st.completions ++ [⟨j.ident, j.attempts⟩] }
  | JobStatus.retry =>
      let attempts' := j.attempts + 1
      if p.retryConfig.maxAttempts ≤ attempts' then
        { st with
          store := removeJobRow st.store j.ident
          completions := st.completions ++ [⟨j.ident, j.attempts⟩] }
      else
        { st with
          store := updateRow st.store j.ident
            { j with
              attempts := attempts'
              retryAfter := some (st.now + nextRetryDelay p.retryConfig.backoffConfig attempts')
              active := false
              lastAttemptTimestamp := some st.now }
          completions := st.completions ++ [⟨j.ident, j.attempts⟩] }

/-- One scheduling pass (§4.4 steps 3–6): compute available concurrency,
query the eligible rows ordered by priority, dispatch up to the available
count, and handle each runner resolution. -/
def tick (p : ManagerParams) (st : ManagerState) : ManagerState :=
  let avail := p.maxConcurrentJobs - (activeRows st.store).length
  let batch := (sortByPrio st.visibleSet (eligibleRows st.store st.now)).take avail
  batch.foldl (fun s j => handleJobResult p (startJob s j) j) st

/-- One tick of the scheduling loop (§4.4 steps 1–6): skip entirely while
the call-state guard holds, otherwise run a scheduling pass; then advance
the clock by one tick. -/
def step (p : ManagerParams) (st : ManagerState) : ManagerState :=
  let st' := if p.shouldHoldOffOnStartingQueuedJobs st.now then st else tick p st
  { st' with now := st'.now + 1 }

/-- Run the scheduling loop for `n` ticks. -/
def run (p : ManagerParams) (st : ManagerState) : Nat → ManagerState
  | 0 => st
  | n + 1 => run p (step p st) n

/-! ## addJob and urgency -/

/-- The enqueue-time urgency hint (§3). -/
inductive Urgency where
  | STANDARD
  | IMMEDIATE
deriving DecidableEq, Repr

/-- `addJob`'s persistence step: upsert the row via the store (§4.4). -/
def persistJob (st : ManagerState) (j : Job) : ManagerState :=
  { st with store := upsertJob st.store j }

/-- Modelled from the spec: `addJob(job, urgency)` (§4.4; the manager
source is missing from the tree): persist (or reset) the job via the store;
with `STANDARD` urgency the job then waits for the next regular tick.  With
`IMMEDIATE` urgency the manager starts the added job itself immediately,
out of band: the test suite (`runs a job immediately if urgency is
IMMEDIATE`) pins exactly one additional runner invocation, for the added
job, even though higher-priority jobs are pending — so the immediate path
is a direct start of this job, not a general scheduling pass. -/
def addJobWithUrgency (p : ManagerParams) (st : ManagerState) (j : Job)
    (u : Urgency) : ManagerState :=
  match u with
  | Urgency.STANDARD => persistJob st j
  | Urgency.IMMEDIATE =>
      let st' := persistJob st j
      handleJobResult p (startJob st' (resetJob j)) (resetJob j)

/-- Whether the `waitForJobToBeCompleted` future for an (identity,
attempts) pair has been resolved in a state (§4.4, §7). -/
def futureResolved (st : ManagerState) (i : JobIdent) (attempts : Nat) : Bool :=
  decide ((⟨i, attempts⟩ : CompletionEntry) ∈ st.completions)

/-- The state-transformer applied to each job of a dispatched batch. -/
def dispatchOne (p : ManagerParams) (s : ManagerState) (j : Job) : ManagerState :=
  handleJobResult p (startJob s j) j


/-- The batch of jobs a single pass dispatches (§4.4 steps 3–5). -/
def tickBatch (p : ManagerParams) (st : ManagerState) : List Job :=
  (sortByPrio st.visibleSet (eligibleRows st.store st.now)).take
    (p.maxConcurrentJobs - (activeRows st.store).length)


/-- The time at which attempt `k` (0-based) of an always-retrying job is
dispatched, when the first dispatch happens at `t0`: consecutive dispatch
times differ by exactly the backoff delay for the attempt count reached. -/
def dispatchTime (cfg : BackoffConfig) (t0 : Nat) : Nat → Nat
  | 0 => t0
  | k + 1 => dispatchTime cfg t0 k + nextRetryDelay cfg (k + 1)


/-- The persisted row of an always-retrying job right before attempt `k`
(0-based) is dispatched. -/
def jobAtAttempt (cfg : BackoffConfig) (j0 : Job) (t0 : Nat) : Nat → Job
  | 0 => j0
  | k + 1 => { j0 with
      attempts := k + 1
      active := false
      retryAfter := some (dispatchTime cfg t0 (k + 1))
      lastAttemptTimestamp := some (dispatchTime cfg t0 k) }


/-- The number of ticks it takes an always-retrying job, dispatched for
attempt `k` right now, to run through all its remaining attempts and be
dropped. -/
def retryStepsFrom (cfg : BackoffConfig) (M k : Nat) : Nat :=
  1 + ((List.range (M - 1 - k)).map (fun i => nextRetryDelay cfg (k + 1 + i))).sum


/-- The pair of facts the priority comparator looks at: visible-set
membership and `receivedAt`. -/
def prioKeyLe (x y : Bool × Nat) : Bool :=
  if x.1 = y.1 then
    if x.1 then decide (x.2 ≤ y.2) else decide (y.2 ≤ x.2)
  else x.1

/-! ## Concrete fixtures mirroring the test suite -/

/-- The attachment descriptor the test suite composes for a message. -/
def testAttachment (mid : String) : Attachment :=
  { contentType := "image/png", size := 128, digest := "digestFor" ++ mid }

/-- The job row the test suite composes for a message. -/
def testJob (mid : String) (ra : Nat) : Job :=
  { messageId := mid, attachmentType := "attachment", digest := "digestFor" ++ mid
    receivedAt := ra, sentAt := ra, active := false, attempts := 0
    retryAfter := none, lastAttemptTimestamp := none
    attachment := testAttachment mid }

/-- The retry configuration of the test suite (time unit: one minute =
one tick): `maxAttempts 5`, `multiplier 2`, `firstBackoffs [1]`,
`maxBackoffTime 10`. -/
def testBackoff : BackoffConfig := ⟨2, [1], 10⟩

def testRetryConfig : RetryConfig := ⟨5, testBackoff⟩

/-- Manager collaborators with a runner that always finishes. -/
def finishedParams : ManagerParams :=
  ⟨3, testRetryConfig, fun _ => false, fun _ => JobStatus.finished⟩

/-- Manager collaborators with a runner that always asks for a retry. -/
def retryParams : ManagerParams :=
  ⟨3, testRetryConfig, fun _ => false, fun _ => JobStatus.retry⟩

/-- Manager collaborators whose call-state guard holds before time 2. -/
def guardedParams : ManagerParams :=
  ⟨3, testRetryConfig, fun t => decide (t < 2), fun _ => JobStatus.finished⟩

/-- The five jobs of the test suite, `receivedAt 0..4`. -/
def testJobs5 : List Job :=
  [testJob "message-0" 0, testJob "message-1" 1, testJob "message-2" 2,
   testJob "message-3" 3, testJob "message-4" 4]

/-- A downloader that always succeeds with a fixed descriptor. -/
def okDownloader : Downloader :=
  fun _ => Except.ok ⟨"/path/to/file", "iv", "plaintextHash"⟩

/-- A downloader that always throws. -/
def failDownloader : Downloader :=
  fun _ => Except.error "error while downloading"

/-- A downloader that throws on the Default variant and succeeds on the
thumbnail variant. -/
def failDefaultDownloader : Downloader :=
  fun v => match v with
    | AttachmentVariant.Default => Except.error "error while downloading"
    | AttachmentVariant.ThumbnailFromBackup =>
        Except.ok ⟨"/path/to/thumbnail", "iv", "plaintextHash"⟩

/-- An attachment carrying a backup locator and no thumbnail. -/
def backupAttachment : Attachment :=
  { contentType := "image/png", size := 128, digest := "digestFor1"
    backupLocator := some ⟨"medianame"⟩ }

/-! ## Basic facts about the priority order -/

theorem prioLe_total (vis : List String) (a b : Job) :
    prioLe vis a b = true ∨ prioLe vis b a = true := by
  unfold prioLe
  cases ha : isVisible vis a <;> cases hb : isVisible vis b <;>
    simp [ha, hb] <;> omega

theorem prioLe_trans (vis : List String) (a b c : Job)
    (h1 : prioLe vis a b = true) (h2 : prioLe vis b c = true) :
    prioLe vis a c = true := by
  unfold prioLe at *
  cases ha : isVisible vis a <;> cases hb : isVisible vis b <;>
      cases hc : isVisible vis c <;>
    simp [ha, hb, hc] at * <;> omega

instance (vis : List String) : IsTotal Job (JobPrio vis) :=
  ⟨fun a b => prioLe_total vis a b⟩

instance (vis : List String) : IsTrans Job (JobPrio vis) :=
  ⟨fun a b c h1 h2 => prioLe_trans vis a b c h1 h2⟩

theorem sortByPrio_perm (vis : List String) (l : List Job) :
    List.Perm (sortByPrio vis l) l :=
  List.perm_insertionSort (JobPrio vis) l

theorem sortByPrio_sorted (vis : List String) (l : List Job) :
    List.Sorted (JobPrio vis) (sortByPrio vis l) :=
  List.sorted_insertionSort (JobPrio vis) l

theorem sortByPrio_length (vis : List String) (l : List Job) :
    (sortByPrio vis l).length = l.length :=
  (sortByPrio_perm vis l).length_eq

/-- A priority-sorted list filters the same way before or after sorting
(the sort is stable, so equal-priority elements keep their relative
order). -/
theorem filter_orderedInsert (vis : List String) (q : Job → Bool) (x : Job) :
    ∀ s : List Job, List.Sorted (JobPrio vis) s →
      (s.orderedInsert (JobPrio vis) x).filter q =
        if q x then (s.filter q).orderedInsert (JobPrio vis) x else s.filter q := by
  intro s
  induction s with
  | nil =>
      intro _
      cases hq : q x <;> simp [List.orderedInsert, List.filter, hq]
  | cons y s ih =>
      intro hs
      rcases List.sorted_cons.mp hs with ⟨hy, hs'⟩
      by_cases hxy : JobPrio vis x y
      · rw [List.orderedInsert_of_le (JobPrio vis) s hxy]
        cases hq : q x
        · simp [List.filter_cons, hq]
        · have hall : ∀ z ∈ (y :: s).filter q, JobPrio vis x z := by
            intro z hz
            rcases List.mem_filter.mp hz with ⟨hz', _⟩
            rcases List.mem_cons.mp hz' with h | h
            · exact h ▸ hxy
            · exact prioLe_trans vis x y z hxy (hy z h)
          have hx1 : (x :: y :: s).filter q = x :: (y :: s).filter q := by
            simp [List.filter_cons, hq]
          rw [hx1, if_pos rfl]
          generalize hw : (y :: s).filter q = w at hall
          cases w with
          | nil => rfl
          | cons z t =>
              exact (List.orderedInsert_of_le (JobPrio vis) t
                (hall z (List.mem_cons_self z t))).symm
      · have hstep : (y :: s).orderedInsert (JobPrio vis) x
            = y :: s.orderedInsert (JobPrio vis) x := by
          simp [List.orderedInsert, hxy]
        rw [hstep]
        cases hq : q x
        · simp only [List.filter_cons, ih hs', hq, Bool.false_eq_true, if_false]
        · simp only [List.filter_cons, ih hs', hq, if_true]
          cases hqy : q y
          · simp [hqy]
          · simp only [hqy, if_true]
            simp [List.orderedInsert, hxy]

/-- Filtering commutes with the stable priority sort. -/
theorem filter_sortByPrio (vis : List String) (q : Job → Bool) :
    ∀ l : List Job, (sortByPrio vis l).filter q = sortByPrio vis (l.filter q) := by
  intro l
  induction l with
  | nil => rfl
  | cons x l ih =>
      have hgoal : sortByPrio vis (x :: l)
          = (sortByPrio vis l).orderedInsert (JobPrio vis) x := rfl
      rw [hgoal, filter_orderedInsert vis q x _ (sortByPrio_sorted vis l)]
      cases hq : q x
      · simp only [Bool.false_eq_true, if_false, ih]
        simp [sortByPrio, List.filter_cons, hq]
      · simp only [if_true, ih]
        simp only [List.filter_cons, hq, if_pos rfl]
        rfl

/-! ## Bookkeeping lemmas about the scheduling loop -/

@[simp]
theorem ident_set_active (j : Job) (b : Bool) :
    ({ j with active := b } : Job).ident = j.ident := rfl

theorem dispatchOne_now (p : ManagerParams) (s : ManagerState) (j : Job) :
    (dispatchOne p s j).now = s.now := by
  unfold dispatchOne handleJobResult startJob
  cases p.runJob j <;> simp <;> split <;> rfl

theorem dispatchOne_vis (p : ManagerParams) (s : ManagerState) (j : Job) :
    (dispatchOne p s j).visibleSet = s.visibleSet := by
  unfold dispatchOne handleJobResult startJob
  cases p.runJob j <;> simp <;> split <;> rfl

theorem dispatchOne_trace (p : ManagerParams) (s : ManagerState) (j : Job) :
    (dispatchOne p s j).trace = s.trace ++ [⟨j, s.now⟩] := by
  unfold dispatchOne handleJobResult startJob
  cases p.runJob j <;> simp <;> split <;> rfl

theorem foldl_dispatch_now (p : ManagerParams) :
    ∀ (batch : List Job) (s : ManagerState),
      (batch.foldl (dispatchOne p) s).now = s.now := by
  intro batch
  induction batch with
  | nil => intro s; rfl
  | cons j batch ih => intro s; rw [List.foldl_cons, ih, dispatchOne_now]

theorem foldl_dispatch_vis (p : ManagerParams) :
    ∀ (batch : List Job) (s : ManagerState),
      (batch.foldl (dispatchOne p) s).visibleSet = s.visibleSet := by
  intro batch
  induction batch with
  | nil => intro s; rfl
  | cons j batch ih => intro s; rw [List.foldl_cons, ih, dispatchOne_vis]

theorem foldl_dispatch_trace (p : ManagerParams) :
    ∀ (batch : List Job) (s : ManagerState),
      (batch.foldl (dispatchOne p) s).trace
        = s.trace ++ batch.map (fun j => ⟨j, s.now⟩) := by
  intro batch
  induction batch with
  | nil => intro s; simp
  | cons j batch ih =>
      intro s
      rw [List.foldl_cons, ih, dispatchOne_trace, dispatchOne_now]
      simp

theorem tick_eq_foldl (p : ManagerParams) (st : ManagerState) :
    tick p st =
      ((sortByPrio st.visibleSet (eligibleRows st.store st.now)).take
          (p.maxConcurrentJobs - (activeRows st.store).length)).foldl
        (dispatchOne p) st := rfl

theorem tick_now (p : ManagerParams) (st : ManagerState) :
    (tick p st).now = st.now := by
  rw [tick_eq_foldl, foldl_dispatch_now]

theorem tick_vis (p : ManagerParams) (st : ManagerState) :
    (tick p st).visibleSet = st.visibleSet := by
  rw [tick_eq_foldl, foldl_dispatch_vis]

theorem step_now (p : ManagerParams) (st : ManagerState) :
    (step p st).now = st.now + 1 := by
  unfold step
  split <;> simp [tick_now]

theorem step_vis (p : ManagerParams) (st : ManagerState) :
    (step p st).visibleSet = st.visibleSet := by
  unfold step
  split <;> simp [tick_vis]

theorem run_succ (p : ManagerParams) (st : ManagerState) (n : Nat) :
    run p st (n + 1) = run p (step p st) n := rfl

theorem run_add (p : ManagerParams) (m : Nat) :
    ∀ (n : Nat) (st : ManagerState), run p st (n + m) = run p (run p st n) m := by
  intro n
  induction n with
  | zero => intro st; rw [Nat.zero_add]; rfl
  | succ n ih =>
      intro st
      have h1 : n + 1 + m = (n + m) + 1 := by omega
      rw [h1, run_succ, run_succ, ih]

/-- A tick on a store with no eligible rows changes nothing. -/
theorem tick_no_eligible (p : ManagerParams) (st : ManagerState)
    (h : eligibleRows st.store st.now = []) : tick p st = st := by
  rw [tick_eq_foldl, h]
  simp [sortByPrio]

/-- A step on an empty store only advances the clock. -/
theorem step_empty_store (p : ManagerParams) (st : ManagerState)
    (h : st.store = []) : step p st = { st with now := st.now + 1 } := by
  have helig : eligibleRows st.store st.now = [] := by
    rw [h]; rfl
  unfold step
  split
  · rfl
  · rw [tick_no_eligible p st helig]

/-- A run on an empty store only advances the clock. -/
theorem run_empty_store (p : ManagerParams) :
    ∀ (n : Nat) (st : ManagerState), st.store = [] →
      run p st n = { st with now := st.now + n } := by
  intro n
  induction n with
  | zero => intro st h; rfl
  | succ n ih =>
      intro st h
      rw [run_succ, step_empty_store p st h]
      rw [ih { st with now := st.now + 1 } h]
      congr 1
      show st.now + 1 + n = st.now + (n + 1)
      omega

/-! ## The effect of a pass when every runner invocation finishes -/

theorem removeJobRow_markActive (l : List Job) (i : JobIdent) (b : Bool) :
    removeJobRow (markActive l i b) i = removeJobRow l i := by
  induction l with
  | nil => rfl
  | cons a l ih =>
      by_cases h : a.ident = i <;>
        simp [removeJobRow, markActive, List.filter_cons, h] at * <;>
        exact ih

theorem dispatchOne_finished (p : ManagerParams) (s : ManagerState) (j : Job)
    (hfin : p.runJob j = JobStatus.finished) :
    (dispatchOne p s j).store = removeJobRow s.store j.ident
      ∧ (dispatchOne p s j).completions
          = s.completions ++ [⟨j.ident, j.attempts⟩] := by
  unfold dispatchOne handleJobResult startJob
  rw [hfin]
  exact ⟨removeJobRow_markActive s.store j.ident true, rfl⟩

theorem foldl_dispatch_finished (p : ManagerParams)
    (hfin : ∀ j, p.runJob j = JobStatus.finished) :
    ∀ (batch : List Job) (s : ManagerState),
      (batch.foldl (dispatchOne p) s).store
          = batch.foldl (fun l j => removeJobRow l j.ident) s.store
        ∧ (batch.foldl (dispatchOne p) s).completions
          = s.completions ++ batch.map (fun j => (⟨j.ident, j.attempts⟩ : CompletionEntry)) := by
  intro batch
  induction batch with
  | nil => intro s; simp
  | cons j batch ih =>
      intro s
      rcases dispatchOne_finished p s j (hfin j) with ⟨h1, h2⟩
      rcases ih (dispatchOne p s j) with ⟨ih1, ih2⟩
      constructor
      · simp only [List.foldl_cons]
        rw [ih1, h1]
      · simp only [List.foldl_cons]
        rw [ih2, h2]
        simp

theorem foldl_remove_eq_filter :
    ∀ (batch : List Job) (l : List Job),
      batch.foldl (fun acc j => removeJobRow acc j.ident) l
        = l.filter (fun r => decide (r.ident ∉ batch.map Job.ident)) := by
  intro batch
  induction batch with
  | nil => intro l; simp
  | cons j batch ih =>
      intro l
      rw [List.foldl_cons, ih, removeJobRow]
      rw [List.filter_filter]
      apply List.filter_congr
      intro r _
      simp only [List.map_cons, List.mem_cons]
      rcases h : decide (r.ident = j.ident) <;>
        simp_all

/-- If every row of a store is inactive with no pending `retryAfter`, the
whole store is eligible and none of it is active. -/
theorem eligibleRows_all (store : List Job) (now : Nat)
    (hact : ∀ j ∈ store, j.active = false)
    (hra : ∀ j ∈ store, j.retryAfter = none) :
    eligibleRows store now = store ∧ activeRows store = [] := by
  constructor
  · apply List.filter_eq_self.mpr
    intro j hj
    rw [hact j hj]
    unfold retryElapsed
    rw [hra j hj]
    rfl
  · rw [activeRows, List.filter_eq_nil_iff]
    intro j hj
    rw [hact j hj]
    simp

/-- The effect of one scheduling pass on a fully-eligible store when every
runner invocation reports `finished`: the top-priority batch (up to the
concurrency cap) is dispatched, logged, completed and removed. -/
theorem tick_finished (p : ManagerParams) (st : ManagerState)
    (hfin : ∀ j, p.runJob j = JobStatus.finished)
    (hact : ∀ j ∈ st.store, j.active = false)
    (hra : ∀ j ∈ st.store, j.retryAfter = none) :
    tick p st = { st with
      store := st.store.filter (fun r => decide (r.ident ∉
        ((sortByPrio st.visibleSet st.store).take p.maxConcurrentJobs).map Job.ident))
      trace := st.trace ++ ((sortByPrio st.visibleSet st.store).take
          p.maxConcurrentJobs).map (fun j => ⟨j, st.now⟩)
      completions := st.completions ++ ((sortByPrio st.visibleSet st.store).take
          p.maxConcurrentJobs).map (fun j => (⟨j.ident, j.attempts⟩ : CompletionEntry)) } := by
  rcases eligibleRows_all st.store st.now hact hra with ⟨he, ha⟩
  have hcap : p.maxConcurrentJobs - (activeRows st.store).length
      = p.maxConcurrentJobs := by
    rw [ha]
    simp
  rw [tick_eq_foldl, he, hcap]
  rcases foldl_dispatch_finished p hfin
      ((sortByPrio st.visibleSet st.store).take p.maxConcurrentJobs) st with ⟨h1, h2⟩
  have h3 := foldl_dispatch_trace p
      ((sortByPrio st.visibleSet st.store).take p.maxConcurrentJobs) st
  have h4 := foldl_dispatch_now p
      ((sortByPrio st.visibleSet st.store).take p.maxConcurrentJobs) st
  have h5 := foldl_dispatch_vis p
      ((sortByPrio st.visibleSet st.store).take p.maxConcurrentJobs) st
  rw [foldl_remove_eq_filter] at h1
  rcases hfold : ((sortByPrio st.visibleSet st.store).take
      p.maxConcurrentJobs).foldl (dispatchOne p) st with ⟨s1, s2, s3, s4, s5⟩
  rw [hfold] at h1 h2 h3 h4 h5
  simp only at h1 h2 h3 h4 h5
  rw [h1, h2, h3, h4, h5]

theorem step_no_hold (p : ManagerParams) (st : ManagerState)
    (h : p.shouldHoldOffOnStartingQueuedJobs st.now = false) :
    step p st = { tick p st with now := st.now + 1 } := by
  unfold step
  rw [h]
  simp only [Bool.false_eq_true, if_false]
  rw [tick_now]

theorem step_finished (p : ManagerParams) (st : ManagerState)
    (hfin : ∀ j, p.runJob j = JobStatus.finished)
    (hact : ∀ j ∈ st.store, j.active = false)
    (hra : ∀ j ∈ st.store, j.retryAfter = none)
    (hnow : p.shouldHoldOffOnStartingQueuedJobs st.now = false) :
    step p st = { st with
      store := st.store.filter (fun r => decide (r.ident ∉
        ((sortByPrio st.visibleSet st.store).take p.maxConcurrentJobs).map Job.ident))
      trace := st.trace ++ ((sortByPrio st.visibleSet st.store).take
          p.maxConcurrentJobs).map (fun j => ⟨j, st.now⟩)
      completions := st.completions ++ ((sortByPrio st.visibleSet st.store).take
          p.maxConcurrentJobs).map (fun j => (⟨j.ident, j.attempts⟩ : CompletionEntry))
      now := st.now + 1 } := by
  rw [step_no_hold p st hnow, tick_finished p st hfin hact hra]

/-- Removing from the store exactly the identities of the first `k`
sorted jobs leaves a store that sorts to the remaining sorted jobs. -/
theorem sort_filter_out (vis : List String) (l : List Job) (k : Nat)
    (ids : List JobIdent)
    (ha : ∀ r ∈ (sortByPrio vis l).take k, r.ident ∈ ids)
    (hb : ∀ r ∈ (sortByPrio vis l).drop k, r.ident ∉ ids) :
    sortByPrio vis (l.filter (fun r => decide (r.ident ∉ ids)))
      = (sortByPrio vis l).drop k := by
  rw [← filter_sortByPrio]
  conv_lhs => rw [← List.take_append_drop k (sortByPrio vis l)]
  rw [List.filter_append]
  have htake : ((sortByPrio vis l).take k).filter
      (fun r => decide (r.ident ∉ ids)) = [] := by
    rw [List.filter_eq_nil_iff]
    intro r hr
    simp only [decide_eq_true_eq]
    exact fun hcon => hcon (ha r hr)
  have hdrop : ((sortByPrio vis l).drop k).filter
      (fun r => decide (r.ident ∉ ids)) = (sortByPrio vis l).drop k := by
    rw [List.filter_eq_self]
    intro r hr
    simp only [decide_eq_true_eq]
    exact hb r hr
  rw [htake, hdrop, List.nil_append]

/-- Over a full run in which every runner invocation reports `finished`,
the guard never holds, and the whole store is pending and inactive with
distinct identities, the manager dispatches exactly the priority-sorted
store (in order) and ends with an empty store. -/
theorem run_finished (p : ManagerParams)
    (hfin : ∀ j, p.runJob j = JobStatus.finished)
    (hhold : ∀ t, p.shouldHoldOffOnStartingQueuedJobs t = false)
    (hcap : 1 ≤ p.maxConcurrentJobs) :
    ∀ (n : Nat) (st : ManagerState),
      (∀ j ∈ st.store, j.active = false) →
      (∀ j ∈ st.store, j.retryAfter = none) →
      (st.store.map Job.ident).Nodup →
      st.store.length ≤ n →
      (run p st n).trace.map TraceEntry.job
          = st.trace.map TraceEntry.job ++ sortByPrio st.visibleSet st.store
        ∧ (run p st n).store = [] := by
  intro n
  induction n with
  | zero =>
      intro st _ _ _ h4
      have hnil : st.store = [] := List.eq_nil_of_length_eq_zero (Nat.le_zero.mp h4)
      constructor
      · show st.trace.map TraceEntry.job
            = st.trace.map TraceEntry.job ++ sortByPrio st.visibleSet st.store
        rw [hnil]
        simp [sortByPrio]
      · exact hnil
  | succ n ih =>
      intro st h1 h2 h3 h4
      by_cases hnil : st.store = []
      · rw [run_empty_store p (n + 1) st hnil]
        constructor
        · show st.trace.map TraceEntry.job
              = st.trace.map TraceEntry.job ++ sortByPrio st.visibleSet st.store
          rw [hnil]
          simp [sortByPrio]
        · exact hnil
      · have hlenpos : 1 ≤ st.store.length := by
          rcases hst : st.store with _ | ⟨a, l⟩
          · exact absurd hst hnil
          · simp
        -- disjointness of batch identities from the rest
        have hperm := sortByPrio_perm st.visibleSet st.store
        have hnodups : ((sortByPrio st.visibleSet st.store).map Job.ident).Nodup :=
          ((hperm.map Job.ident).nodup_iff).mpr h3
        have hsplit : (sortByPrio st.visibleSet st.store).map Job.ident
            = ((sortByPrio st.visibleSet st.store).take p.maxConcurrentJobs).map Job.ident
              ++ ((sortByPrio st.visibleSet st.store).drop
                  p.maxConcurrentJobs).map Job.ident := by
          rw [← List.map_append, List.take_append_drop]
        rw [hsplit] at hnodups
        rcases List.nodup_append.mp hnodups with ⟨-, -, hdisj⟩
        have hfil := sort_filter_out st.visibleSet st.store p.maxConcurrentJobs
          (((sortByPrio st.visibleSet st.store).take p.maxConcurrentJobs).map Job.ident)
          (fun r hr => List.mem_map_of_mem Job.ident hr)
          (fun r hr hcon => hdisj hcon (List.mem_map_of_mem Job.ident hr))
        -- the state after the first tick
        rw [run_succ, step_finished p st hfin h1 h2 (hhold st.now)]
        have hobl1 : ∀ j ∈ st.store.filter (fun r => decide (r.ident ∉
            ((sortByPrio st.visibleSet st.store).take p.maxConcurrentJobs).map Job.ident)),
            j.active = false :=
          fun j hj => h1 j (List.mem_of_mem_filter hj)
        have hobl2 : ∀ j ∈ st.store.filter (fun r => decide (r.ident ∉
            ((sortByPrio st.visibleSet st.store).take p.maxConcurrentJobs).map Job.ident)),
            j.retryAfter = none :=
          fun j hj => h2 j (List.mem_of_mem_filter hj)
        have hobl3 : ((st.store.filter (fun r => decide (r.ident ∉
            ((sortByPrio st.visibleSet st.store).take
              p.maxConcurrentJobs).map Job.ident))).map Job.ident).Nodup :=
          h3.sublist ((List.filter_sublist st.store).map Job.ident)
        have hobl4 : (st.store.filter (fun r => decide (r.ident ∉
            ((sortByPrio st.visibleSet st.store).take
              p.maxConcurrentJobs).map Job.ident))).length ≤ n := by
          have hl1 : (st.store.filter (fun r => decide (r.ident ∉
              ((sortByPrio st.visibleSet st.store).take
                p.maxConcurrentJobs).map Job.ident))).length
              = ((sortByPrio st.visibleSet st.store).drop p.maxConcurrentJobs).length := by
            rw [← sortByPrio_length st.visibleSet, hfil]
          rw [hl1, List.length_drop, sortByPrio_length]
          omega
        rcases ih { st with
            store := st.store.filter (fun r => decide (r.ident ∉
              ((sortByPrio st.visibleSet st.store).take p.maxConcurrentJobs).map Job.ident))
            trace := st.trace ++ ((sortByPrio st.visibleSet st.store).take
                p.maxConcurrentJobs).map (fun j => ⟨j, st.now⟩)
            completions := st.completions ++ ((sortByPrio st.visibleSet st.store).take
                p.maxConcurrentJobs).map
                  (fun j => (⟨j.ident, j.attempts⟩ : CompletionEntry))
            now := st.now + 1 } hobl1 hobl2 hobl3 hobl4 with ⟨ihtr, ihst⟩
        refine ⟨?_, ihst⟩
        rw [ihtr]
        show (st.trace ++ ((sortByPrio st.visibleSet st.store).take
            p.maxConcurrentJobs).map (fun j => (⟨j, st.now⟩ : TraceEntry))).map TraceEntry.job
            ++ sortByPrio st.visibleSet (st.store.filter (fun r => decide (r.ident ∉
              ((sortByPrio st.visibleSet st.store).take p.maxConcurrentJobs).map Job.ident)))
          = st.trace.map TraceEntry.job ++ sortByPrio st.visibleSet st.store
        rw [hfil, List.map_append, List.map_map]
        have hid : (TraceEntry.job ∘ fun j => (⟨j, st.now⟩ : TraceEntry)) = id := rfl
        rw [hid, List.map_id, List.append_assoc, List.take_append_drop]

/-- What the priority comparator guarantees about two ordered jobs:
visible ones never follow non-visible ones, visible pairs are in ascending
`receivedAt`, non-visible pairs in descending `receivedAt`. -/
theorem prioLe_dest (vis : List String) (a b : Job) (h : prioLe vis a b = true) :
    (isVisible vis b = true → isVisible vis a = true)
      ∧ (isVisible vis a = true → isVisible vis b = true →
          a.receivedAt ≤ b.receivedAt)
      ∧ (isVisible vis a = false → isVisible vis b = false →
          b.receivedAt ≤ a.receivedAt) := by
  unfold prioLe at h
  cases ha : isVisible vis a <;> cases hb : isVisible vis b <;>
    simp [ha, hb] at h ⊢ <;> omega

theorem tick_trace (p : ManagerParams) (st : ManagerState) :
    (tick p st).trace
      = st.trace ++ (tickBatch p st).map (fun j => (⟨j, st.now⟩ : TraceEntry)) := by
  rw [tick_eq_foldl, foldl_dispatch_trace]
  rfl

/-- A single pass never dispatches more jobs than the concurrency cap. -/
theorem tickBatch_length_le (p : ManagerParams) (st : ManagerState) :
    (tickBatch p st).length ≤ p.maxConcurrentJobs :=
  le_trans (List.length_take_le _ _) (Nat.sub_le _ _)

theorem step_trace_cases (p : ManagerParams) (st : ManagerState) :
    (step p st).trace = st.trace
      ∨ (step p st).trace
        = st.trace ++ (tickBatch p st).map (fun j => (⟨j, st.now⟩ : TraceEntry)) := by
  unfold step
  split
  · exact Or.inl rfl
  · exact Or.inr (tick_trace p st)

/-- Every dispatch is stamped with its tick time, and no single tick time
carries more dispatches than the concurrency cap: starting from a state
whose log predates its clock, at most `maxConcurrentJobs` logged dispatches
share any one time stamp. -/
theorem run_time_bound (p : ManagerParams) :
    ∀ (n : Nat) (st : ManagerState),
      (∀ e ∈ st.trace, e.time < st.now) →
      (∀ e ∈ (run p st n).trace, e.time < (run p st n).now)
        ∧ ∀ t, ((run p st n).trace.filter (fun e => decide (e.time = t))).length
            ≤ max ((st.trace.filter (fun e => decide (e.time = t))).length)
                p.maxConcurrentJobs := by
  intro n
  induction n with
  | zero =>
      intro st hb
      exact ⟨hb, fun t => le_max_left _ _⟩
  | succ n ih =>
      intro st hb
      rw [run_succ]
      have hmemnew : ∀ e ∈ (tickBatch p st).map
          (fun j => (⟨j, st.now⟩ : TraceEntry)), e.time = st.now := by
        intro e he
        rcases List.mem_map.mp he with ⟨j, -, hj⟩
        rw [← hj]
      have hb' : ∀ e ∈ (step p st).trace, e.time < (step p st).now := by
        intro e he
        rw [step_now]
        rcases step_trace_cases p st with hc | hc <;> rw [hc] at he
        · exact Nat.lt_succ_of_lt (hb e he)
        · rcases List.mem_append.mp he with h | h
          · exact Nat.lt_succ_of_lt (hb e h)
          · rw [hmemnew e h]
            exact Nat.lt_succ_self _
      have hcount : ∀ t, ((step p st).trace.filter
            (fun e => decide (e.time = t))).length
          ≤ max ((st.trace.filter (fun e => decide (e.time = t))).length)
              p.maxConcurrentJobs := by
        intro t
        rcases step_trace_cases p st with hc | hc <;> rw [hc]
        · exact le_max_left _ _
        · rw [List.filter_append, List.length_append]
          by_cases ht : t = st.now
          · have hzero : (st.trace.filter (fun e => decide (e.time = t))).length
                = 0 := by
              rw [List.length_eq_zero, List.filter_eq_nil_iff]
              intro e he
              simp only [decide_eq_true_eq]
              intro hcon
              rw [ht] at hcon
              exact absurd hcon (Nat.ne_of_lt (hb e he))
            have hnew : (((tickBatch p st).map
                  (fun j => (⟨j, st.now⟩ : TraceEntry))).filter
                  (fun e => decide (e.time = t))).length ≤ p.maxConcurrentJobs := by
              calc _ ≤ ((tickBatch p st).map
                    (fun j => (⟨j, st.now⟩ : TraceEntry))).length :=
                      List.length_filter_le _ _
                _ = (tickBatch p st).length := List.length_map _ _
                _ ≤ p.maxConcurrentJobs := tickBatch_length_le p st
            omega
          · have hnew : (((tickBatch p st).map
                  (fun j => (⟨j, st.now⟩ : TraceEntry))).filter
                  (fun e => decide (e.time = t))).length = 0 := by
              rw [List.length_eq_zero, List.filter_eq_nil_iff]
              intro e he
              simp only [decide_eq_true_eq]
              rw [hmemnew e he]
              exact fun hcon => ht hcon.symm
            omega
      rcases ih (step p st) hb' with ⟨ih1, ih2⟩
      refine ⟨ih1, fun t => ?_⟩
      have := ih2 t
      have := hcount t
      omega

/-! ## The retry run of a single always-retrying job -/

theorem dispatchTime_succ (cfg : BackoffConfig) (t0 k : Nat) :
    dispatchTime cfg t0 (k + 1)
      = dispatchTime cfg t0 k + nextRetryDelay cfg (k + 1) := rfl

theorem jobAtAttempt_ident (cfg : BackoffConfig) (j0 : Job) (t0 k : Nat) :
    (jobAtAttempt cfg j0 t0 k).ident = j0.ident := by
  cases k <;> rfl

theorem jobAtAttempt_attempts (cfg : BackoffConfig) (j0 : Job) (t0 k : Nat)
    (h0 : j0.attempts = 0) : (jobAtAttempt cfg j0 t0 k).attempts = k := by
  cases k with
  | zero => exact h0
  | succ m => rfl

theorem jobAtAttempt_active (cfg : BackoffConfig) (j0 : Job) (t0 k : Nat)
    (h0 : j0.active = false) : (jobAtAttempt cfg j0 t0 k).active = false := by
  cases k with
  | zero => exact h0
  | succ m => rfl

theorem retryElapsed_jobAtAttempt (cfg : BackoffConfig) (j0 : Job) (t0 k : Nat)
    (h0 : j0.retryAfter = none) :
    retryElapsed (jobAtAttempt cfg j0 t0 k) (dispatchTime cfg t0 k) = true := by
  cases k with
  | zero => simp [jobAtAttempt, retryElapsed, h0]
  | succ m => simp [jobAtAttempt, retryElapsed]

theorem jobAtAttempt_succ_eq (cfg : BackoffConfig) (j0 : Job) (t0 k : Nat)
    (h0 : j0.attempts = 0) :
    ({ jobAtAttempt cfg j0 t0 k with
        attempts := (jobAtAttempt cfg j0 t0 k).attempts + 1
        retryAfter := some (dispatchTime cfg t0 k
          + nextRetryDelay cfg ((jobAtAttempt cfg j0 t0 k).attempts + 1))
        active := false
        lastAttemptTimestamp := some (dispatchTime cfg t0 k) } : Job)
      = jobAtAttempt cfg j0 t0 (k + 1) := by
  cases k with
  | zero => simp [jobAtAttempt, dispatchTime, h0]
  | succ m => simp [jobAtAttempt, dispatchTime]

theorem run_one (p : ManagerParams) (st : ManagerState) :
    run p st 1 = step p st := rfl

/-- One tick on a single-row store holding an eligible job whose runner
reports "retry": the job is dispatched and logged; its row is dropped when
the incremented attempt count reaches `maxAttempts`, otherwise the row is
persisted with the incremented count and the new `retryAfter`. -/
theorem step_retry_single (p : ManagerParams) (vis : List String)
    (trace : List TraceEntry) (comps : List CompletionEntry) (j : Job) (now : Nat)
    (hhold : p.shouldHoldOffOnStartingQueuedJobs now = false)
    (hrun : p.runJob j = JobStatus.retry)
    (hcap : 1 ≤ p.maxConcurrentJobs)
    (hja : j.active = false)
    (helig : retryElapsed j now = true) :
    step p ⟨[j], vis, now, trace, comps⟩ =
      if p.retryConfig.maxAttempts ≤ j.attempts + 1 then
        ⟨[], vis, now + 1, trace ++ [⟨j, now⟩], comps ++ [⟨j.ident, j.attempts⟩]⟩
      else
        ⟨[{ j with
            attempts := j.attempts + 1
            retryAfter := some (now
              + nextRetryDelay p.retryConfig.backoffConfig (j.attempts + 1))
            active := false
            lastAttemptTimestamp := some now }],
          vis, now + 1, trace ++ [⟨j, now⟩], comps ++ [⟨j.ident, j.attempts⟩]⟩ := by
  have helig2 : eligibleRows [j] now = [j] := by
    simp [eligibleRows, List.filter_cons, hja, helig]
  have hact2 : activeRows [j] = [] := by
    simp [activeRows, List.filter_cons, hja]
  have hrem : removeJobRow (markActive [j] j.ident true) j.ident = [] := by
    rw [removeJobRow_markActive]
    simp [removeJobRow, List.filter_cons]
  have hupd : ∀ x : Job, updateRow (markActive [j] j.ident true) j.ident x = [x] := by
    intro x
    simp [updateRow, markActive]
  rw [step_no_hold p ⟨[j], vis, now, trace, comps⟩ hhold, tick_eq_foldl]
  dsimp only
  rw [helig2, hact2]
  simp only [List.length_nil, Nat.sub_zero]
  have hsort : sortByPrio vis [j] = [j] := rfl
  rw [hsort]
  have htake : ([j] : List Job).take p.maxConcurrentJobs = [j] :=
    List.take_of_length_le (by simpa using hcap)
  rw [htake]
  simp only [List.foldl_cons, List.foldl_nil]
  unfold dispatchOne handleJobResult startJob
  rw [hrun]
  dsimp only
  by_cases hM : p.retryConfig.maxAttempts ≤ j.attempts + 1
  · rw [if_pos hM, if_pos hM, hrem]
  · rw [if_neg hM, if_neg hM, hupd]

/-- While a lone job's `retryAfter` has not yet elapsed, ticks only advance
the clock. -/
theorem run_idle_single (p : ManagerParams) (vis : List String) :
    ∀ (m : Nat) (j : Job) (r now : Nat) (trace : List TraceEntry)
      (comps : List CompletionEntry),
      j.active = false → j.retryAfter = some r → now + m ≤ r →
      run p ⟨[j], vis, now, trace, comps⟩ m = ⟨[j], vis, now + m, trace, comps⟩ := by
  intro m
  induction m with
  | zero => intro j r now trace comps _ _ _; rfl
  | succ m ih =>
      intro j r now trace comps hja hra hle
      have hlt : ¬ (r ≤ now) := by omega
      have helig : eligibleRows [j] now = [] := by
        simp [eligibleRows, List.filter_cons, retryElapsed, hja, hra, hlt]
      have hstep : step p ⟨[j], vis, now, trace, comps⟩
          = ⟨[j], vis, now + 1, trace, comps⟩ := by
        unfold step
        split
        · rfl
        · rw [tick_no_eligible _ _ helig]
      rw [run_succ, hstep, ih j r (now + 1) trace comps hja hra (by omega)]
      congr 1
      omega

theorem retryStepsFrom_last (cfg : BackoffConfig) (M k : Nat)
    (h : M - 1 - k = 0) : retryStepsFrom cfg M k = 1 := by
  simp [retryStepsFrom, h]

theorem retryStepsFrom_succ (cfg : BackoffConfig) (M k : Nat) (h : k + 1 < M) :
    retryStepsFrom cfg M k
      = nextRetryDelay cfg (k + 1) + retryStepsFrom cfg M (k + 1) := by
  unfold retryStepsFrom
  have h1 : M - 1 - k = (M - 1 - (k + 1)) + 1 := by omega
  rw [h1, List.range_succ_eq_map, List.map_cons, List.map_map, List.sum_cons]
  have h2 : ((List.range (M - 1 - (k + 1))).map
        ((fun i => nextRetryDelay cfg (k + 1 + i)) ∘ Nat.succ)).sum
      = ((List.range (M - 1 - (k + 1))).map
        (fun i => nextRetryDelay cfg (k + 1 + 1 + i))).sum := by
    apply congrArg
    apply List.map_congr_left
    intro i _
    show nextRetryDelay cfg (k + 1 + (i + 1)) = nextRetryDelay cfg (k + 1 + 1 + i)
    congr 1
    omega
  rw [h2]
  simp only [Nat.add_zero]
  omega

/-- The dispatch-time total of a full retry run: starting at attempt `k`
dispatched at `dispatchTime k`, after `retryStepsFrom k` ticks the clock is
one past the final dispatch. -/
theorem run_retry_phase (p : ManagerParams) (vis : List String) (j0 : Job) (t0 : Nat)
    (hrun : ∀ x, p.runJob x = JobStatus.retry)
    (hhold : ∀ t, p.shouldHoldOffOnStartingQueuedJobs t = false)
    (hcap : 1 ≤ p.maxConcurrentJobs)
    (h0att : j0.attempts = 0) (h0act : j0.active = false)
    (h0ra : j0.retryAfter = none)
    (hpos : ∀ i, 1 ≤ i → i < p.retryConfig.maxAttempts →
      1 ≤ nextRetryDelay p.retryConfig.backoffConfig i) :
    ∀ (d k : Nat), p.retryConfig.maxAttempts - 1 - k = d →
      k < p.retryConfig.maxAttempts →
      ∀ (trace : List TraceEntry) (comps : List CompletionEntry),
      run p ⟨[jobAtAttempt p.retryConfig.backoffConfig j0 t0 k], vis,
          dispatchTime p.retryConfig.backoffConfig t0 k, trace, comps⟩
          (retryStepsFrom p.retryConfig.backoffConfig p.retryConfig.maxAttempts k)
        = ⟨[], vis,
            dispatchTime p.retryConfig.backoffConfig t0
              (p.retryConfig.maxAttempts - 1) + 1,
            trace ++ (List.range (p.retryConfig.maxAttempts - k)).map
              (fun i => ⟨jobAtAttempt p.retryConfig.backoffConfig j0 t0 (k + i),
                dispatchTime p.retryConfig.backoffConfig t0 (k + i)⟩),
            comps ++ (List.range (p.retryConfig.maxAttempts - k)).map
              (fun i => ⟨j0.ident, k + i⟩)⟩ := by
  intro d
  induction d with
  | zero =>
      intro k hd hk trace comps
      have hkM : k = p.retryConfig.maxAttempts - 1 := by omega
      subst hkM
      have hlast : retryStepsFrom p.retryConfig.backoffConfig
          p.retryConfig.maxAttempts (p.retryConfig.maxAttempts - 1) = 1 :=
        retryStepsFrom_last _ _ _ hd
      rw [hlast, run_one]
      rw [step_retry_single p vis trace comps _ _ (hhold _) (hrun _) hcap
        (jobAtAttempt_active _ _ _ _ h0act)
        (retryElapsed_jobAtAttempt _ _ _ _ h0ra)]
      rw [jobAtAttempt_attempts _ _ _ _ h0att, jobAtAttempt_ident]
      have hM : p.retryConfig.maxAttempts ≤ (p.retryConfig.maxAttempts - 1) + 1 := by
        omega
      rw [if_pos hM]
      have hrange : p.retryConfig.maxAttempts - (p.retryConfig.maxAttempts - 1)
          = 1 := by omega
      rw [hrange]
      have h01 : List.range 1 = [0] := rfl
      simp [h01]
  | succ d ih =>
      intro k hd hk trace comps
      have hk1 : k + 1 < p.retryConfig.maxAttempts := by omega
      have hdel : 1 ≤ nextRetryDelay p.retryConfig.backoffConfig (k + 1) :=
        hpos (k + 1) (by omega) hk1
      have htotal : retryStepsFrom p.retryConfig.backoffConfig
            p.retryConfig.maxAttempts k
          = (1 + (nextRetryDelay p.retryConfig.backoffConfig (k + 1) - 1))
            + retryStepsFrom p.retryConfig.backoffConfig
                p.retryConfig.maxAttempts (k + 1) := by
        rw [retryStepsFrom_succ _ _ _ hk1]
        omega
      rw [htotal, run_add, run_add, run_one]
      rw [step_retry_single p vis trace comps _ _ (hhold _) (hrun _) hcap
        (jobAtAttempt_active _ _ _ _ h0act)
        (retryElapsed_jobAtAttempt _ _ _ _ h0ra)]
      rw [jobAtAttempt_attempts _ _ _ _ h0att, jobAtAttempt_ident]
      have hM : ¬ (p.retryConfig.maxAttempts ≤ k + 1) := by omega
      rw [if_neg hM]
      -- the persisted row is exactly the row of attempt k+1
      have hrow : ({ jobAtAttempt p.retryConfig.backoffConfig j0 t0 k with
          attempts := k + 1
          retryAfter := some (dispatchTime p.retryConfig.backoffConfig t0 k
            + nextRetryDelay p.retryConfig.backoffConfig (k + 1))
          active := false
          lastAttemptTimestamp :=
            some (dispatchTime p.retryConfig.backoffConfig t0 k) } : Job)
          = jobAtAttempt p.retryConfig.backoffConfig j0 t0 (k + 1) := by
        have := jobAtAttempt_succ_eq p.retryConfig.backoffConfig j0 t0 k h0att
        rwa [jobAtAttempt_attempts _ _ _ _ h0att] at this
      rw [hrow]
      -- idle until the next retryAfter elapses
      have hidle := run_idle_single p vis
        (nextRetryDelay p.retryConfig.backoffConfig (k + 1) - 1)
        (jobAtAttempt p.retryConfig.backoffConfig j0 t0 (k + 1))
        (dispatchTime p.retryConfig.backoffConfig t0 (k + 1))
        (dispatchTime p.retryConfig.backoffConfig t0 k + 1)
        (trace ++ [⟨jobAtAttempt p.retryConfig.backoffConfig j0 t0 k,
          dispatchTime p.retryConfig.backoffConfig t0 k⟩])
        (comps ++ [⟨j0.ident, k⟩])
        rfl rfl (by rw [dispatchTime_succ]; omega)
      rw [hidle]
      have hnow : dispatchTime p.retryConfig.backoffConfig t0 k + 1
          + (nextRetryDelay p.retryConfig.backoffConfig (k + 1) - 1)
          = dispatchTime p.retryConfig.backoffConfig t0 (k + 1) := by
        rw [dispatchTime_succ]
        omega
      rw [hnow]
      rw [ih (k + 1) (by omega) hk1 _ _]
      congr 1
      · -- trace: one new head entry plus the tail of the recursion
        rw [List.append_assoc]
        apply congrArg
        have hMk : p.retryConfig.maxAttempts - k
            = (p.retryConfig.maxAttempts - (k + 1)) + 1 := by omega
        rw [hMk, List.range_succ_eq_map, List.map_cons, List.map_map]
        rw [List.singleton_append]
        apply congrArg
        apply List.map_congr_left
        intro i _
        show (⟨jobAtAttempt p.retryConfig.backoffConfig j0 t0 (k + 1 + i),
            dispatchTime p.retryConfig.backoffConfig t0 (k + 1 + i)⟩ : TraceEntry)
          = ⟨jobAtAttempt p.retryConfig.backoffConfig j0 t0 (k + (i + 1)),
            dispatchTime p.retryConfig.backoffConfig t0 (k + (i + 1))⟩
        have harg : k + 1 + i = k + (i + 1) := by omega
        rw [harg]
      · -- completions: same reindexing
        rw [List.append_assoc]
        apply congrArg
        have hMk : p.retryConfig.maxAttempts - k
            = (p.retryConfig.maxAttempts - (k + 1)) + 1 := by omega
        rw [hMk, List.range_succ_eq_map, List.map_cons, List.map_map]
        rw [List.singleton_append]
        apply congrArg
        apply List.map_congr_left
        intro i _
        show (⟨j0.ident, k + 1 + i⟩ : CompletionEntry) = ⟨j0.ident, k + (i + 1)⟩
        have harg : k + 1 + i = k + (i + 1) := by omega
        rw [harg]

/-! ## Characterization of the backoff policy -/

/-- Within the seed sequence, the delay for attempt `k` is
`firstBackoffs[k-1]`. -/
theorem nextRetryDelay_seed (cfg : BackoffConfig) (k : Nat)
    (h : k ≤ cfg.firstBackoffs.length) :
    nextRetryDelay cfg k = cfg.firstBackoffs.getD (k - 1) 0 := by
  unfold nextRetryDelay
  rw [if_pos h]

/-- Beyond the seed sequence, the delay grows geometrically from the last
seed by `multiplier`, capped at `maxBackoffTime`. -/
theorem nextRetryDelay_geometric (cfg : BackoffConfig) (k : Nat)
    (h : cfg.firstBackoffs.length < k) :
    nextRetryDelay cfg k
      = min cfg.maxBackoffTime
          (cfg.firstBackoffs.getLastD 0
            * cfg.multiplier ^ (k - cfg.firstBackoffs.length)) := by
  unfold nextRetryDelay
  rw [if_neg (by omega)]

/-! ## A single job that finishes, and the call-state guard -/

/-- One tick on a single-row store holding an eligible job whose runner
reports terminal success: the job is dispatched, logged, completed and its
row removed. -/
theorem step_finished_single (p : ManagerParams) (vis : List String)
    (trace : List TraceEntry) (comps : List CompletionEntry) (j : Job) (now : Nat)
    (hhold : p.shouldHoldOffOnStartingQueuedJobs now = false)
    (hrun : p.runJob j = JobStatus.finished)
    (hcap : 1 ≤ p.maxConcurrentJobs)
    (hja : j.active = false)
    (helig : retryElapsed j now = true) :
    step p ⟨[j], vis, now, trace, comps⟩ =
      ⟨[], vis, now + 1, trace ++ [⟨j, now⟩], comps ++ [⟨j.ident, j.attempts⟩]⟩ := by
  have helig2 : eligibleRows [j] now = [j] := by
    simp [eligibleRows, List.filter_cons, hja, helig]
  have hact2 : activeRows [j] = [] := by
    simp [activeRows, List.filter_cons, hja]
  have hrem : removeJobRow (markActive [j] j.ident true) j.ident = [] := by
    rw [removeJobRow_markActive]
    simp [removeJobRow, List.filter_cons]
  rw [step_no_hold p ⟨[j], vis, now, trace, comps⟩ hhold, tick_eq_foldl]
  dsimp only
  rw [helig2, hact2]
  simp only [List.length_nil, Nat.sub_zero]
  have hsort : sortByPrio vis [j] = [j] := rfl
  rw [hsort]
  have htake : ([j] : List Job).take p.maxConcurrentJobs = [j] :=
    List.take_of_length_le (by simpa using hcap)
  rw [htake]
  simp only [List.foldl_cons, List.foldl_nil]
  unfold dispatchOne handleJobResult startJob
  rw [hrun]
  dsimp only
  rw [hrem]

theorem step_holdoff (p : ManagerParams) (st : ManagerState)
    (h : p.shouldHoldOffOnStartingQueuedJobs st.now = true) :
    step p st = { st with now := st.now + 1 } := by
  unfold step
  rw [h]
  simp

/-- While the call-state guard holds, ticks change nothing but the clock:
no job starts, no store row changes, no future resolves. -/
theorem run_holdoff (p : ManagerParams) :
    ∀ (n : Nat) (st : ManagerState),
      (∀ m, m < n → p.shouldHoldOffOnStartingQueuedJobs (st.now + m) = true) →
      run p st n = { st with now := st.now + n } := by
  intro n
  induction n with
  | zero => intro st _; rfl
  | succ n ih =>
      intro st h
      have h0 : p.shouldHoldOffOnStartingQueuedJobs st.now = true := by
        have := h 0 (by omega)
        rwa [Nat.add_zero] at this
      rw [run_succ, step_holdoff p st h0]
      rw [ih { st with now := st.now + 1 } (by
        intro m hm
        have := h (m + 1) (by omega)
        show p.shouldHoldOffOnStartingQueuedJobs (st.now + 1 + m) = true
        rwa [show st.now + 1 + m = st.now + (m + 1) from by omega])]
      congr 1
      show st.now + 1 + n = st.now + (n + 1)
      omega

theorem step_trace_no_hold (p : ManagerParams) (st : ManagerState)
    (h : p.shouldHoldOffOnStartingQueuedJobs st.now = false) :
    (step p st).trace
      = st.trace ++ (tickBatch p st).map (fun j => (⟨j, st.now⟩ : TraceEntry)) := by
  rw [step_no_hold p st h]
  exact tick_trace p st

/-- On a fully-pending inactive store, the batch of one pass is the
top-priority slice of the whole store, up to the concurrency cap. -/
theorem tickBatch_all_eligible (p : ManagerParams) (st : ManagerState)
    (hact : ∀ j ∈ st.store, j.active = false)
    (hra : ∀ j ∈ st.store, j.retryAfter = none) :
    tickBatch p st
      = (sortByPrio st.visibleSet st.store).take p.maxConcurrentJobs := by
  rcases eligibleRows_all st.store st.now hact hra with ⟨he, ha⟩
  unfold tickBatch
  rw [he, ha]
  simp

/-! ## The claims -/

/-- C1: for every job whose runner always resolves with status "retry",
under a retry configuration with `maxAttempts`, `firstBackoffs`,
`multiplier` and `maxBackoffTime`, the manager attempts the job exactly
`maxAttempts` times; the gap before retry `k` (for `k ≤ |firstBackoffs|`)
equals `firstBackoffs[k-1]`, later gaps grow geometrically by `multiplier`
capped at `maxBackoffTime`, and after the final attempt the job's row is
removed from the store.  (Delays are assumed to be positive multiples of
the tick granularity, one time unit per tick.) -/
theorem c1_retry_backoff (p : ManagerParams) (vis : List String) (j0 : Job)
    (t0 : Nat)
    (hrun : ∀ x, p.runJob x = JobStatus.retry)
    (hhold : ∀ t, p.shouldHoldOffOnStartingQueuedJobs t = false)
    (hcap : 1 ≤ p.maxConcurrentJobs)
    (hM : 1 ≤ p.retryConfig.maxAttempts)
    (h0att : j0.attempts = 0) (h0act : j0.active = false)
    (h0ra : j0.retryAfter = none)
    (hpos : ∀ i, 1 ≤ i → i < p.retryConfig.maxAttempts →
      1 ≤ nextRetryDelay p.retryConfig.backoffConfig i) :
    ∀ extra : Nat,
      (run p (initState [j0] vis t0)
          (retryStepsFrom p.retryConfig.backoffConfig
            p.retryConfig.maxAttempts 0 + extra)).trace
        = (List.range p.retryConfig.maxAttempts).map
            (fun k => ⟨jobAtAttempt p.retryConfig.backoffConfig j0 t0 k,
              dispatchTime p.retryConfig.backoffConfig t0 k⟩)
      ∧ (run p (initState [j0] vis t0)
          (retryStepsFrom p.retryConfig.backoffConfig
            p.retryConfig.maxAttempts 0 + extra)).trace.length
        = p.retryConfig.maxAttempts
      ∧ (∀ k, dispatchTime p.retryConfig.backoffConfig t0 (k + 1)
          = dispatchTime p.retryConfig.backoffConfig t0 k
            + nextRetryDelay p.retryConfig.backoffConfig (k + 1))
      ∧ (∀ k, 1 ≤ k → k ≤ p.retryConfig.backoffConfig.firstBackoffs.length →
          nextRetryDelay p.retryConfig.backoffConfig k
            = p.retryConfig.backoffConfig.firstBackoffs.getD (k - 1) 0)
      ∧ (∀ k, p.retryConfig.backoffConfig.firstBackoffs.length < k →
          nextRetryDelay p.retryConfig.backoffConfig k
            = min p.retryConfig.backoffConfig.maxBackoffTime
                (p.retryConfig.backoffConfig.firstBackoffs.getLastD 0
                  * p.retryConfig.backoffConfig.multiplier
                    ^ (k - p.retryConfig.backoffConfig.firstBackoffs.length)))
      ∧ (run p (initState [j0] vis t0)
          (retryStepsFrom p.retryConfig.backoffConfig
            p.retryConfig.maxAttempts 0 + extra)).store = [] := by
  intro extra
  have hphase := run_retry_phase p vis j0 t0 hrun hhold hcap h0att h0act h0ra hpos
    (p.retryConfig.maxAttempts - 1) 0 (by omega) (by omega) [] []
  have hinit : (initState [j0] vis t0)
      = ⟨[jobAtAttempt p.retryConfig.backoffConfig j0 t0 0], vis,
          dispatchTime p.retryConfig.backoffConfig t0 0, [], []⟩ := rfl
  have hrun2 : run p (initState [j0] vis t0)
      (retryStepsFrom p.retryConfig.backoffConfig p.retryConfig.maxAttempts 0 + extra)
      = { (⟨[], vis,
            dispatchTime p.retryConfig.backoffConfig t0
              (p.retryConfig.maxAttempts - 1) + 1,
            [] ++ (List.range (p.retryConfig.maxAttempts - 0)).map
              (fun i => ⟨jobAtAttempt p.retryConfig.backoffConfig j0 t0 (0 + i),
                dispatchTime p.retryConfig.backoffConfig t0 (0 + i)⟩),
            [] ++ (List.range (p.retryConfig.maxAttempts - 0)).map
              (fun i => ⟨j0.ident, 0 + i⟩)⟩ : ManagerState) with
          now := dispatchTime p.retryConfig.backoffConfig t0
              (p.retryConfig.maxAttempts - 1) + 1 + extra } := by
    rw [run_add, hinit, hphase]
    rw [run_empty_store p extra _ rfl]
  rw [hrun2]
  have hzero : ∀ i : Nat, 0 + i = i := fun i => by omega
  refine ⟨?_, ?_, fun k => dispatchTime_succ _ _ _,
    fun k h1 h2 => nextRetryDelay_seed _ _ h2,
    fun k h => nextRetryDelay_geometric _ _ h, rfl⟩
  · show [] ++ (List.range (p.retryConfig.maxAttempts - 0)).map _ = _
    simp only [List.nil_append, Nat.sub_zero]
    apply List.map_congr_left
    intro i _
    rw [hzero i]
  · show ([] ++ (List.range (p.retryConfig.maxAttempts - 0)).map _).length = _
    simp

/-- Witness for C1 at the test suite's configuration: one job, runner
always retrying, `maxAttempts 5`, `firstBackoffs [1]`, `multiplier 2`,
`maxBackoffTime 10`. -/
theorem c1_retry_backoff_witness :
    (∀ x, retryParams.runJob x = JobStatus.retry)
    ∧ (∀ i, 1 ≤ i → i < retryParams.retryConfig.maxAttempts →
        1 ≤ nextRetryDelay retryParams.retryConfig.backoffConfig i)
    ∧ (run retryParams (initState [testJob "m" 7] [] 0)
        (retryStepsFrom retryParams.retryConfig.backoffConfig
          retryParams.retryConfig.maxAttempts 0 + 0)).trace
      = (List.range retryParams.retryConfig.maxAttempts).map
          (fun k => ⟨jobAtAttempt retryParams.retryConfig.backoffConfig
              (testJob "m" 7) 0 k,
            dispatchTime retryParams.retryConfig.backoffConfig 0 k⟩)
    ∧ (run retryParams (initState [testJob "m" 7] [] 0)
        (retryStepsFrom retryParams.retryConfig.backoffConfig
          retryParams.retryConfig.maxAttempts 0 + 0)).store = [] := by
  have hrun : ∀ x, retryParams.runJob x = JobStatus.retry := fun _ => rfl
  have hpos : ∀ i, 1 ≤ i → i < retryParams.retryConfig.maxAttempts →
      1 ≤ nextRetryDelay retryParams.retryConfig.backoffConfig i := by
    intro i h1 h2
    have h2' : i < 5 := h2
    interval_cases i <;> decide
  have h := c1_retry_backoff retryParams [] (testJob "m" 7) 0 hrun
    (fun _ => rfl) (by decide) (by decide) rfl rfl rfl hpos 0
  exact ⟨hrun, hpos, h.1, h.2.2.2.2.2⟩

theorem prioLe_nil (a b : Job) :
    prioLe [] a b = decide (b.receivedAt ≤ a.receivedAt) := by
  simp [prioLe, isVisible]

/-- C2: for every set of pending jobs with pairwise distinct `receivedAt`
and an empty visible set, the manager dispatches the jobs in strictly
descending `receivedAt` order, each exactly once, and never logs more than
`maxConcurrentJobs` dispatches in any single tick. -/
theorem c2_priority_order (p : ManagerParams) (js : List Job) (t0 n : Nat)
    (hrun : ∀ j, p.runJob j = JobStatus.finished)
    (hhold : ∀ t, p.shouldHoldOffOnStartingQueuedJobs t = false)
    (hcap : 1 ≤ p.maxConcurrentJobs)
    (hact : ∀ j ∈ js, j.active = false)
    (hra : ∀ j ∈ js, j.retryAfter = none)
    (hids : (js.map Job.ident).Nodup)
    (hrec : js.Pairwise (fun a b => a.receivedAt ≠ b.receivedAt))
    (hn : js.length ≤ n) :
    ((run p (initState js [] t0) n).trace).map TraceEntry.job = sortByPrio [] js
    ∧ (run p (initState js [] t0) n).trace.length = js.length
    ∧ (run p (initState js [] t0) n).trace.Pairwise
        (fun a b => b.job.receivedAt < a.job.receivedAt)
    ∧ ∀ t, ((run p (initState js [] t0) n).trace.filter
          (fun e => decide (e.time = t))).length ≤ p.maxConcurrentJobs := by
  obtain ⟨htr, hst⟩ := run_finished p hrun hhold hcap n (initState js [] t0)
    hact hra hids hn
  have htr' : ((run p (initState js [] t0) n).trace).map TraceEntry.job
      = sortByPrio [] js := by
    rw [htr]
    simp [initState]
  refine ⟨htr', ?_, ?_, ?_⟩
  · have := congrArg List.length htr'
    rw [List.length_map] at this
    rw [this, sortByPrio_length]
  · have hsorted : (sortByPrio [] js).Pairwise
        (fun a b => b.receivedAt ≤ a.receivedAt) := by
      apply (sortByPrio_sorted [] js).imp
      intro a b h
      have h' : prioLe [] a b = true := h
      rw [prioLe_nil] at h'
      exact of_decide_eq_true h'
    have hne : (sortByPrio [] js).Pairwise
        (fun a b => a.receivedAt ≠ b.receivedAt) := by
      exact (List.Perm.pairwise_iff (fun h e => h e.symm)
        (sortByPrio_perm [] js)).mpr hrec
    have hlt : (sortByPrio [] js).Pairwise
        (fun a b => b.receivedAt < a.receivedAt) := by
      apply (hsorted.and hne).imp
      intro a b h
      exact Nat.lt_of_le_of_ne h.1 (fun e => h.2 e.symm)
    rw [← htr'] at hlt
    exact List.pairwise_map.mp hlt
  · intro t
    have hb : ∀ e ∈ (initState js [] t0).trace, e.time < (initState js [] t0).now := by
      intro e he
      simp [initState] at he
    have := (run_time_bound p n (initState js [] t0) hb).2 t
    simpa [initState] using this

/-- Witness for C2 at the test suite's scenario: five jobs with
`receivedAt 0..4`, cap 3, empty visible set. -/
theorem c2_priority_order_witness :
    (testJobs5.map Job.ident).Nodup
    ∧ testJobs5.Pairwise (fun a b => a.receivedAt ≠ b.receivedAt)
    ∧ ((run finishedParams (initState testJobs5 [] 0) 5).trace).map TraceEntry.job
        = sortByPrio [] testJobs5
    ∧ (run finishedParams (initState testJobs5 [] 0) 5).trace.Pairwise
        (fun a b => b.job.receivedAt < a.job.receivedAt) := by
  have hids : (testJobs5.map Job.ident).Nodup := by decide
  have hrec : testJobs5.Pairwise (fun a b => a.receivedAt ≠ b.receivedAt) := by
    decide
  have h := c2_priority_order finishedParams testJobs5 0 5 (fun _ => rfl)
    (fun _ => rfl) (by decide) (by decide) (by decide) hids hrec (by decide)
  exact ⟨hids, hrec, h.1, h.2.2.1⟩

/-- C3, counterexample to the claim as stated: in the test suite's own
scenario (five jobs `receivedAt 0..4`, visible set `{message-0, message-1}`)
the dispatch order within the visible partition is ascending `receivedAt`
(`message-0` then `message-1`), so it is not true that within each of the
two partitions the dispatch order is by descending `receivedAt`. -/
theorem c3_counterexample :
    (run finishedParams (initState testJobs5 ["message-0", "message-1"] 0)
        5).trace.map (fun e => e.job.messageId)
      = ["message-0", "message-1", "message-4", "message-3", "message-2"]
    ∧ ¬ (run finishedParams (initState testJobs5 ["message-0", "message-1"] 0)
        5).trace.Pairwise (fun a b =>
          isVisible ["message-0", "message-1"] a.job
              = isVisible ["message-0", "message-1"] b.job
            → b.job.receivedAt ≤ a.job.receivedAt) := by
  constructor
  · decide
  · decide

/-- C3, amended: for every set of pending jobs with distinct identities and
every visible set, every job whose message id is in the visible set is
dispatched before every job whose message id is not, even when the
non-visible jobs have larger `receivedAt`; within the visible partition the
dispatch order is by ascending `receivedAt` (oldest first, as the test
suite pins), and within the non-visible partition by descending
`receivedAt`. -/
theorem c3_visible_priority (p : ManagerParams) (js : List Job)
    (vis : List String) (t0 n : Nat)
    (hrun : ∀ j, p.runJob j = JobStatus.finished)
    (hhold : ∀ t, p.shouldHoldOffOnStartingQueuedJobs t = false)
    (hcap : 1 ≤ p.maxConcurrentJobs)
    (hact : ∀ j ∈ js, j.active = false)
    (hra : ∀ j ∈ js, j.retryAfter = none)
    (hids : (js.map Job.ident).Nodup)
    (hn : js.length ≤ n) :
    ((run p (initState js vis t0) n).trace).map TraceEntry.job = sortByPrio vis js
    ∧ (run p (initState js vis t0) n).trace.length = js.length
    ∧ (run p (initState js vis t0) n).trace.Pairwise (fun a b =>
        (isVisible vis b.job = true → isVisible vis a.job = true)
        ∧ (isVisible vis a.job = true → isVisible vis b.job = true →
            a.job.receivedAt ≤ b.job.receivedAt)
        ∧ (isVisible vis a.job = false → isVisible vis b.job = false →
            b.job.receivedAt ≤ a.job.receivedAt)) := by
  obtain ⟨htr, hst⟩ := run_finished p hrun hhold hcap n (initState js vis t0)
    hact hra hids hn
  have htr' : ((run p (initState js vis t0) n).trace).map TraceEntry.job
      = sortByPrio vis js := by
    rw [htr]
    simp [initState]
  refine ⟨htr', ?_, ?_⟩
  · have := congrArg List.length htr'
    rw [List.length_map] at this
    rw [this, sortByPrio_length]
  · have hsorted : (sortByPrio vis js).Pairwise (fun a b =>
        (isVisible vis b = true → isVisible vis a = true)
        ∧ (isVisible vis a = true → isVisible vis b = true →
            a.receivedAt ≤ b.receivedAt)
        ∧ (isVisible vis a = false → isVisible vis b = false →
            b.receivedAt ≤ a.receivedAt)) := by
      apply (sortByPrio_sorted vis js).imp
      intro a b h
      exact prioLe_dest vis a b h
    rw [← htr'] at hsorted
    exact List.pairwise_map.mp hsorted

/-- Witness for the amended C3 at the test suite's scenario: five jobs,
visible set `{message-0, message-1}`, cap 3. -/
theorem c3_visible_priority_witness :
    (testJobs5.map Job.ident).Nodup
    ∧ ((run finishedParams (initState testJobs5 ["message-0", "message-1"] 0)
        5).trace).map TraceEntry.job
      = sortByPrio ["message-0", "message-1"] testJobs5
    ∧ (run finishedParams (initState testJobs5 ["message-0", "message-1"] 0)
        5).trace.Pairwise (fun a b =>
        (isVisible ["message-0", "message-1"] b.job = true →
            isVisible ["message-0", "message-1"] a.job = true)
        ∧ (isVisible ["message-0", "message-1"] a.job = true →
            isVisible ["message-0", "message-1"] b.job = true →
            a.job.receivedAt ≤ b.job.receivedAt)
        ∧ (isVisible ["message-0", "message-1"] a.job = false →
            isVisible ["message-0", "message-1"] b.job = false →
            b.job.receivedAt ≤ a.job.receivedAt)) := by
  have hids : (testJobs5.map Job.ident).Nodup := by decide
  have h := c3_visible_priority finishedParams testJobs5
    ["message-0", "message-1"] 0 5 (fun _ => rfl) (fun _ => rfl) (by decide)
    (by decide) (by decide) hids (by decide)
  exact ⟨hids, h.1, h.2.2⟩

/-- C4: for a visible message with a `backupLocator` and no previously
downloaded thumbnail, the runner's first downloader call uses the
`ThumbnailFromBackup` variant; if it succeeds, no `Default` call is made in
the same invocation and the result is flagged
`onlyAttemptedBackupThumbnail = true`; if it throws, exactly one further
`Default` call is made, and if that also throws the invocation rejects. -/
theorem c4_visible_thumbnail_first (dl : Downloader) (att : Attachment)
    (hbl : att.backupLocator.isSome = true)
    (hth : att.thumbnailFromBackup = none) :
    (runDownloadAttachmentJobInner dl true att).2.head?
        = some AttachmentVariant.ThumbnailFromBackup
    ∧ (∀ d, dl AttachmentVariant.ThumbnailFromBackup = Except.ok d →
        (runDownloadAttachmentJobInner dl true att).2
            = [AttachmentVariant.ThumbnailFromBackup]
        ∧ (runDownloadAttachmentJobInner dl true att).1
            = Except.ok (RunOutcome.thumbnailOnly
                { att with thumbnailFromBackup := some d })
        ∧ RunOutcome.onlyAttemptedBackupThumbnail
            (RunOutcome.thumbnailOnly { att with thumbnailFromBackup := some d })
          = true)
    ∧ (∀ e, dl AttachmentVariant.ThumbnailFromBackup = Except.error e →
        (runDownloadAttachmentJobInner dl true att).2
            = [AttachmentVariant.ThumbnailFromBackup, AttachmentVariant.Default]
        ∧ ∀ e2, dl AttachmentVariant.Default = Except.error e2 →
            (runDownloadAttachmentJobInner dl true att).1 = Except.error e2) := by
  unfold runDownloadAttachmentJobInner
  rw [hbl, hth]
  simp only [Option.isNone_none, Bool.and_true, Bool.and_self, if_true]
  refine ⟨?_, fun d hd => ?_, fun e he => ?_⟩
  · rcases h1 : dl AttachmentVariant.ThumbnailFromBackup with e | d
    · rcases h2 : dl AttachmentVariant.Default with e2 | d2 <;> rfl
    · rfl
  · rw [hd]
    exact ⟨rfl, rfl, rfl⟩
  · rw [he]
    rcases h2 : dl AttachmentVariant.Default with e2 | d2
    · refine ⟨rfl, fun e3 he3 => ?_⟩
      injection he3 with h4
      rw [h4]
    · refine ⟨rfl, fun e3 he3 => ?_⟩
      simp at he3

/-- Witness for C4: a downloader that always succeeds makes exactly one
call, with the thumbnail variant; one that always throws makes the
thumbnail call then exactly one `Default` call and rejects. -/
theorem c4_visible_thumbnail_first_witness :
    backupAttachment.backupLocator.isSome = true
    ∧ backupAttachment.thumbnailFromBackup = none
    ∧ (runDownloadAttachmentJobInner okDownloader true backupAttachment).2
        = [AttachmentVariant.ThumbnailFromBackup]
    ∧ (runDownloadAttachmentJobInner failDownloader true backupAttachment).2
        = [AttachmentVariant.ThumbnailFromBackup, AttachmentVariant.Default]
    ∧ (runDownloadAttachmentJobInner failDownloader true backupAttachment).1
        = Except.error "error while downloading" := by
  refine ⟨rfl, rfl, ?_, ?_, ?_⟩
  · exact ((c4_visible_thumbnail_first okDownloader backupAttachment rfl rfl).2.1
      ⟨"/path/to/file", "iv", "plaintextHash"⟩ rfl).1
  · exact ((c4_visible_thumbnail_first failDownloader backupAttachment rfl rfl).2.2
      "error while downloading" rfl).1
  · exact ((c4_visible_thumbnail_first failDownloader backupAttachment rfl rfl).2.2
      "error while downloading" rfl).2 "error while downloading" rfl

/-- C5: for a non-visible message, the runner's first downloader call uses
the `Default` variant; if it throws and a `backupLocator` exists, exactly
one further `ThumbnailFromBackup` call is made and, on its success, the
result is flagged `onlyAttemptedBackupThumbnail = false`; with no
`backupLocator` the single `Default` failure propagates with no second
call. -/
theorem c5_notvisible_default_first (dl : Downloader) (att : Attachment) :
    (runDownloadAttachmentJobInner dl false att).2.head?
        = some AttachmentVariant.Default
    ∧ (∀ e, dl AttachmentVariant.Default = Except.error e →
        (att.backupLocator.isSome = true →
          (runDownloadAttachmentJobInner dl false att).2
              = [AttachmentVariant.Default, AttachmentVariant.ThumbnailFromBackup]
          ∧ ∀ d, dl AttachmentVariant.ThumbnailFromBackup = Except.ok d →
              (runDownloadAttachmentJobInner dl false att).1
                  = Except.ok (RunOutcome.thumbnailFallback
                      { att with thumbnailFromBackup := some d })
              ∧ RunOutcome.onlyAttemptedBackupThumbnail
                  (RunOutcome.thumbnailFallback
                    { att with thumbnailFromBackup := some d }) = false)
        ∧ (att.backupLocator = none →
            runDownloadAttachmentJobInner dl false att
              = (Except.error e, [AttachmentVariant.Default]))) := by
  unfold runDownloadAttachmentJobInner
  simp only [Bool.false_and, Bool.not_false, Bool.true_and, if_false,
    Bool.false_eq_true]
  constructor
  · rcases h1 : dl AttachmentVariant.Default with e | d
    · rcases hb : att.backupLocator.isSome
      · simp [hb]
      · rcases h2 : dl AttachmentVariant.ThumbnailFromBackup with e2 | d2 <;>
          simp [hb]
    · rfl
  · intro e he
    rw [he]
    constructor
    · intro hb
      rw [hb]
      simp only [if_true]
      rcases h2 : dl AttachmentVariant.ThumbnailFromBackup with e2 | d2
      · refine ⟨rfl, fun d hd => ?_⟩
        simp at hd
      · refine ⟨rfl, fun d hd => ?_⟩
        injection hd with h4
        rw [← h4]
        exact ⟨rfl, rfl⟩
    · intro hb
      rw [hb]
      rfl

/-- Witness for C5: with a backup locator, a Default failure is followed by
exactly one thumbnail call, which succeeds with the flag false; without a
locator the single failure propagates. -/
theorem c5_notvisible_default_first_witness :
    (failDefaultDownloader AttachmentVariant.Default
        = Except.error "error while downloading")
    ∧ (runDownloadAttachmentJobInner failDefaultDownloader false
        backupAttachment).2
      = [AttachmentVariant.Default, AttachmentVariant.ThumbnailFromBackup]
    ∧ (runDownloadAttachmentJobInner failDefaultDownloader false
        backupAttachment).1
      = Except.ok (RunOutcome.thumbnailFallback
          { backupAttachment with
            thumbnailFromBackup :=
              some ⟨"/path/to/thumbnail", "iv", "plaintextHash"⟩ })
    ∧ runDownloadAttachmentJobInner failDefaultDownloader false
        (testAttachment "1")
      = (Except.error "error while downloading", [AttachmentVariant.Default]) := by
  refine ⟨rfl, ?_, ?_, ?_⟩
  · exact (((c5_notvisible_default_first failDefaultDownloader
      backupAttachment).2 "error while downloading" rfl).1 rfl).1
  · exact ((((c5_notvisible_default_first failDefaultDownloader
      backupAttachment).2 "error while downloading" rfl).1 rfl).2
      ⟨"/path/to/thumbnail", "iv", "plaintextHash"⟩ rfl).1
  · exact ((c5_notvisible_default_first failDefaultDownloader
      (testAttachment "1")).2 "error while downloading" rfl).2 rfl

/-- C10: for a visible message with a `backupLocator` and no existing
thumbnail, a successful thumbnail-only run returns an
`attachmentWithThumbnail` equal to the input attachment on every field,
with only `thumbnailFromBackup` added, holding exactly the descriptor the
downloader returned (in particular its path). -/
theorem c10_thumbnail_frame (dl : Downloader) (att : Attachment)
    (d : DownloadedAttachment)
    (hbl : att.backupLocator.isSome = true)
    (hth : att.thumbnailFromBackup = none)
    (hd : dl AttachmentVariant.ThumbnailFromBackup = Except.ok d) :
    (runDownloadAttachmentJobInner dl true att).1
        = Except.ok (RunOutcome.thumbnailOnly
            { att with thumbnailFromBackup := some d })
    ∧ (RunOutcome.thumbnailOnly
          { att with thumbnailFromBackup := some d }).attachmentWithThumbnailOf
        = some { att with thumbnailFromBackup := some d }
    ∧ ({ att with thumbnailFromBackup := some d }).contentType = att.contentType
    ∧ ({ att with thumbnailFromBackup := some d }).size = att.size
    ∧ ({ att with thumbnailFromBackup := some d }).digest = att.digest
    ∧ ({ att with thumbnailFromBackup := some d }).backupLocator
        = att.backupLocator
    ∧ ({ att with thumbnailFromBackup := some d }).path = att.path
    ∧ ({ att with thumbnailFromBackup := some d }).iv = att.iv
    ∧ ({ att with thumbnailFromBackup := some d }).plaintextHash
        = att.plaintextHash
    ∧ ({ att with thumbnailFromBackup := some d }).thumbnailFromBackup = some d
    ∧ (∀ x, ({ att with thumbnailFromBackup := some d }).thumbnailFromBackup
        = some x → x.path = d.path) := by
  have hmain : (runDownloadAttachmentJobInner dl true att).1
      = Except.ok (RunOutcome.thumbnailOnly
          { att with thumbnailFromBackup := some d }) := by
    unfold runDownloadAttachmentJobInner
    rw [hbl, hth]
    simp only [Option.isNone_none, Bool.and_true, Bool.and_self, if_true]
    rw [hd]
  exact ⟨hmain, rfl, rfl, rfl, rfl, rfl, rfl, rfl, rfl, rfl,
    fun x hx => by cases hx; rfl⟩

/-- Witness for C10 at the test suite's scenario. -/
theorem c10_thumbnail_frame_witness :
    (okDownloader AttachmentVariant.ThumbnailFromBackup
        = Except.ok ⟨"/path/to/file", "iv", "plaintextHash"⟩)
    ∧ (runDownloadAttachmentJobInner okDownloader true backupAttachment).1
        = Except.ok (RunOutcome.thumbnailOnly
            { backupAttachment with
              thumbnailFromBackup :=
                some ⟨"/path/to/file", "iv", "plaintextHash"⟩ })
    ∧ ({ backupAttachment with
          thumbnailFromBackup :=
            some ⟨"/path/to/file", "iv", "plaintextHash"⟩ }).backupLocator
        = backupAttachment.backupLocator := by
  have h := c10_thumbnail_frame okDownloader backupAttachment
    ⟨"/path/to/file", "iv", "plaintextHash"⟩ rfl rfl rfl
  exact ⟨rfl, h.1, h.2.2.2.2.2.1⟩

/-- C6: re-adding a job (same identity) after partial retries resets its
`attempts` to 0 and clears `retryAfter`, making it immediately eligible on
the next scheduling pass even though the old row's `retryAfter` was still
pending; the subsequent backoff restarts from `firstBackoffs[0]`. -/
theorem c6_readd_resets (p : ManagerParams) (vis : List String) (t0 : Nat)
    (old j : Job) (r : Nat)
    (hid : old.ident = j.ident)
    (hatt : 0 < old.attempts)
    (holdra : old.retryAfter = some r)
    (hrun : ∀ x, p.runJob x = JobStatus.retry)
    (hhold : ∀ t, p.shouldHoldOffOnStartingQueuedJobs t = false)
    (hcap : 1 ≤ p.maxConcurrentJobs)
    (hM : 2 ≤ p.retryConfig.maxAttempts)
    (hfb : 1 ≤ p.retryConfig.backoffConfig.firstBackoffs.length) :
    (persistJob ⟨[old], vis, t0, [], []⟩ j).store = [resetJob j]
    ∧ (resetJob j).attempts = 0
    ∧ (resetJob j).retryAfter = none
    ∧ retryElapsed (resetJob j) t0 = true
    ∧ (step p (persistJob ⟨[old], vis, t0, [], []⟩ j)).trace
        = [⟨resetJob j, t0⟩]
    ∧ (step p (persistJob ⟨[old], vis, t0, [], []⟩ j)).store
        = [{ resetJob j with
            attempts := 1
            retryAfter := some (t0
              + p.retryConfig.backoffConfig.firstBackoffs.getD 0 0)
            active := false
            lastAttemptTimestamp := some t0 }] := by
  have hpersist : persistJob ⟨[old], vis, t0, [], []⟩ j
      = ⟨[resetJob j], vis, t0, [], []⟩ := by
    unfold persistJob upsertJob
    have hany : ([old].any (fun r => decide (r.ident = j.ident))) = true := by
      simp [List.any_cons, hid]
    rw [hany]
    simp [hid]
  have hstep := step_retry_single p vis [] [] (resetJob j) t0 (hhold t0)
    (hrun _) hcap rfl rfl
  have hM2 : ¬ (p.retryConfig.maxAttempts ≤ (resetJob j).attempts + 1) := by
    show ¬ (p.retryConfig.maxAttempts ≤ 0 + 1)
    omega
  rw [if_neg hM2] at hstep
  have hdelay : nextRetryDelay p.retryConfig.backoffConfig
      ((resetJob j).attempts + 1)
      = p.retryConfig.backoffConfig.firstBackoffs.getD 0 0 := by
    show nextRetryDelay p.retryConfig.backoffConfig (0 + 1) = _
    rw [nextRetryDelay_seed _ _ (by omega)]
  rw [hdelay] at hstep
  rw [hpersist, hstep]
  exact ⟨rfl, rfl, rfl, rfl, rfl, rfl⟩

/-- Witness for C6 at the test suite's scenario: a job with 3 attempts and
a pending `retryAfter` of 100 is re-added at time 4 and retries at once,
with the backoff restarting at `firstBackoffs[0] = 1`. -/
theorem c6_readd_resets_witness :
    ({ testJob "m" 7 with attempts := 3, retryAfter := some 100 } : Job).ident
        = (testJob "m" 7).ident
    ∧ 0 < ({ testJob "m" 7 with attempts := 3, retryAfter := some 100 } : Job).attempts
    ∧ (step retryParams (persistJob
        ⟨[{ testJob "m" 7 with attempts := 3, retryAfter := some 100 }],
          [], 4, [], []⟩ (testJob "m" 7))).trace
      = [⟨resetJob (testJob "m" 7), 4⟩]
    ∧ (step retryParams (persistJob
        ⟨[{ testJob "m" 7 with attempts := 3, retryAfter := some 100 }],
          [], 4, [], []⟩ (testJob "m" 7))).store
      = [{ resetJob (testJob "m" 7) with
          attempts := 1
          retryAfter := some (4
            + retryParams.retryConfig.backoffConfig.firstBackoffs.getD 0 0)
          active := false
          lastAttemptTimestamp := some 4 }] := by
  have h := c6_readd_resets retryParams [] 4
    { testJob "m" 7 with attempts := 3, retryAfter := some 100 }
    (testJob "m" 7) 100 rfl (by decide) rfl (fun _ => rfl) (fun _ => rfl)
    (by decide) (by decide) (by decide)
  exact ⟨rfl, by decide, h.2.2.2.2.1, h.2.2.2.2.2⟩

/-- C7: when a job is dropped after reaching `maxAttempts`, the
`waitForJobToBeCompleted` future for its final (identity, attempts) pair
resolves rather than hanging, and the job's row is removed from the store
— exactly as on terminal success, where the completion future for the
attempted pair also resolves and the row is also removed. -/
theorem c7_drop_resolves (p : ManagerParams) (vis : List String) (j0 : Job)
    (t0 : Nat)
    (hrun : ∀ x, p.runJob x = JobStatus.retry)
    (hhold : ∀ t, p.shouldHoldOffOnStartingQueuedJobs t = false)
    (hcap : 1 ≤ p.maxConcurrentJobs)
    (hM : 1 ≤ p.retryConfig.maxAttempts)
    (h0att : j0.attempts = 0) (h0act : j0.active = false)
    (h0ra : j0.retryAfter = none)
    (hpos : ∀ i, 1 ≤ i → i < p.retryConfig.maxAttempts →
      1 ≤ nextRetryDelay p.retryConfig.backoffConfig i) :
    futureResolved (run p (initState [j0] vis t0)
        (retryStepsFrom p.retryConfig.backoffConfig
          p.retryConfig.maxAttempts 0)) j0.ident
        (p.retryConfig.maxAttempts - 1) = true
    ∧ (run p (initState [j0] vis t0)
        (retryStepsFrom p.retryConfig.backoffConfig
          p.retryConfig.maxAttempts 0)).store = []
    ∧ (∀ q : ManagerParams, (∀ x, q.runJob x = JobStatus.finished) →
        (∀ t, q.shouldHoldOffOnStartingQueuedJobs t = false) →
        1 ≤ q.maxConcurrentJobs →
        futureResolved (run q (initState [j0] vis t0) 1) j0.ident 0 = true
        ∧ (run q (initState [j0] vis t0) 1).store = []) := by
  have hphase := run_retry_phase p vis j0 t0 hrun hhold hcap h0att h0act h0ra hpos
    (p.retryConfig.maxAttempts - 1) 0 (by omega) (by omega) [] []
  have hinit : (initState [j0] vis t0)
      = ⟨[jobAtAttempt p.retryConfig.backoffConfig j0 t0 0], vis,
          dispatchTime p.retryConfig.backoffConfig t0 0, [], []⟩ := rfl
  refine ⟨?_, ?_, ?_⟩
  · rw [hinit, hphase]
    unfold futureResolved
    rw [decide_eq_true_iff]
    show (⟨j0.ident, p.retryConfig.maxAttempts - 1⟩ : CompletionEntry)
        ∈ [] ++ (List.range (p.retryConfig.maxAttempts - 0)).map
          (fun i => (⟨j0.ident, 0 + i⟩ : CompletionEntry))
    rw [List.nil_append]
    apply List.mem_map.mpr
    refine ⟨p.retryConfig.maxAttempts - 1, ?_, ?_⟩
    · rw [List.mem_range]
      omega
    · congr 1
      omega
  · rw [hinit, hphase]
  · intro q hqrun hqhold hqcap
    have hstep := step_finished_single q vis [] [] j0 t0 (hqhold t0) (hqrun j0)
      hqcap h0act (by unfold retryElapsed; rw [h0ra])
    have hrun1 : run q (initState [j0] vis t0) 1 = step q (initState [j0] vis t0) :=
      run_one q _
    rw [hrun1]
    have hinitq : (initState [j0] vis t0)
        = (⟨[j0], vis, t0, [], []⟩ : ManagerState) := rfl
    rw [hinitq, hstep]
    constructor
    · unfold futureResolved
      rw [decide_eq_true_iff]
      show (⟨j0.ident, 0⟩ : CompletionEntry) ∈ [] ++ [⟨j0.ident, j0.attempts⟩]
      rw [h0att]
      simp
    · rfl

/-- Witness for C7 at the test suite's configuration. -/
theorem c7_drop_resolves_witness :
    (∀ x, retryParams.runJob x = JobStatus.retry)
    ∧ futureResolved (run retryParams (initState [testJob "m" 7] [] 0)
        (retryStepsFrom retryParams.retryConfig.backoffConfig
          retryParams.retryConfig.maxAttempts 0)) (testJob "m" 7).ident
        (retryParams.retryConfig.maxAttempts - 1) = true
    ∧ (run retryParams (initState [testJob "m" 7] [] 0)
        (retryStepsFrom retryParams.retryConfig.backoffConfig
          retryParams.retryConfig.maxAttempts 0)).store = []
    ∧ futureResolved (run finishedParams (initState [testJob "m" 7] [] 0) 1)
        (testJob "m" 7).ident 0 = true := by
  have hrun : ∀ x, retryParams.runJob x = JobStatus.retry := fun _ => rfl
  have hpos : ∀ i, 1 ≤ i → i < retryParams.retryConfig.maxAttempts →
      1 ≤ nextRetryDelay retryParams.retryConfig.backoffConfig i := by
    intro i h1 h2
    have h2' : i < 5 := h2
    interval_cases i <;> decide
  have h := c7_drop_resolves retryParams [] (testJob "m" 7) 0 hrun
    (fun _ => rfl) (by decide) (by decide) rfl rfl rfl hpos
  exact ⟨hrun, h.1, h.2.1,
    (h.2.2 finishedParams (fun _ => rfl) (fun _ => rfl) (by decide)).1⟩

/-- C8: while the `shouldHoldOffOnStartingQueuedJobs` predicate returns
true, no tick dispatches any job (the dispatch log, the store and the
completion log are untouched) no matter how much time elapses; once it
returns false, the next tick dispatches the previously blocked pending
jobs — the top-priority slice up to the concurrency cap, which is all of
them whenever they fit under the cap. -/
theorem c8_call_guard (p : ManagerParams) (st : ManagerState) (n : Nat)
    (hhold : ∀ m, m < n → p.shouldHoldOffOnStartingQueuedJobs (st.now + m) = true) :
    run p st n = { st with now := st.now + n }
    ∧ (run p st n).trace = st.trace
    ∧ (p.shouldHoldOffOnStartingQueuedJobs (st.now + n) = false →
        (∀ j ∈ st.store, j.active = false) →
        (∀ j ∈ st.store, j.retryAfter = none) →
        (run p st (n + 1)).trace
          = st.trace ++ ((sortByPrio st.visibleSet st.store).take
              p.maxConcurrentJobs).map (fun j => (⟨j, st.now + n⟩ : TraceEntry))
        ∧ (st.store.length ≤ p.maxConcurrentJobs →
            ((run p st (n + 1)).trace.drop st.trace.length).map TraceEntry.job
              = sortByPrio st.visibleSet st.store)) := by
  have hblocked := run_holdoff p n st hhold
  refine ⟨hblocked, by rw [hblocked], ?_⟩
  intro hfree hact hra
  have hsplit : run p st (n + 1) = run p (run p st n) 1 := run_add p 1 n st
  have h1 : run p (run p st n) 1 = step p (run p st n) := run_one p _
  have htr : (step p { st with now := st.now + n }).trace
      = st.trace ++ (tickBatch p { st with now := st.now + n }).map
          (fun j => (⟨j, st.now + n⟩ : TraceEntry)) :=
    step_trace_no_hold p { st with now := st.now + n } hfree
  have hbatch : tickBatch p { st with now := st.now + n }
      = (sortByPrio st.visibleSet st.store).take p.maxConcurrentJobs :=
    tickBatch_all_eligible p { st with now := st.now + n } hact hra
  have hmain : (run p st (n + 1)).trace
      = st.trace ++ ((sortByPrio st.visibleSet st.store).take
          p.maxConcurrentJobs).map (fun j => (⟨j, st.now + n⟩ : TraceEntry)) := by
    rw [hsplit, h1, hblocked, htr, hbatch]
  refine ⟨hmain, fun hfit => ?_⟩
  rw [hmain, List.drop_left, List.map_map]
  have htall : (sortByPrio st.visibleSet st.store).take p.maxConcurrentJobs
      = sortByPrio st.visibleSet st.store :=
    List.take_of_length_le (by rw [sortByPrio_length]; exact hfit)
  rw [htall]
  have hid : (TraceEntry.job ∘ fun j => (⟨j, st.now + n⟩ : TraceEntry)) = id := rfl
  rw [hid, List.map_id]

/-- Witness for C8 at the test suite's scenario: the guard holds for the
first two ticks (zero dispatches), then the next tick dispatches the three
newest of the five pending jobs. -/
theorem c8_call_guard_witness :
    (∀ m, m < 2 →
        guardedParams.shouldHoldOffOnStartingQueuedJobs
          ((initState testJobs5 [] 0).now + m) = true)
    ∧ (run guardedParams (initState testJobs5 [] 0) 2).trace = []
    ∧ (run guardedParams (initState testJobs5 [] 0) 3).trace
      = ((sortByPrio [] testJobs5).take 3).map
          (fun j => (⟨j, 2⟩ : TraceEntry)) := by
  have hhold : ∀ m, m < 2 →
      guardedParams.shouldHoldOffOnStartingQueuedJobs
        ((initState testJobs5 [] 0).now + m) = true := by decide
  have h := c8_call_guard guardedParams (initState testJobs5 [] 0) 2 hhold
  exact ⟨hhold, h.2.1, (h.2.2 (by decide) (by decide) (by decide)).1⟩

/-- C9, counterexample to the claim as stated: `IMMEDIATE` urgency does
not merely trigger an out-of-band scheduling pass — it starts the added
job itself.  With one pending job `message-2` (`receivedAt 2`) and an
urgent `message-urgent` (`receivedAt 0`), the `IMMEDIATE` add dispatches
only the urgent job, whereas a scheduling pass from the same persisted
state would dispatch `message-2` first (and the urgent job as well, under
cap 3). -/
theorem c9_counterexample :
    (addJobWithUrgency finishedParams
        (initState [testJob "message-2" 2] [] 0)
        (testJob "message-urgent" 0) Urgency.IMMEDIATE).trace.map
        (fun e => e.job.messageId)
      = ["message-urgent"]
    ∧ (tick finishedParams (persistJob
        (initState [testJob "message-2" 2] [] 0)
        (testJob "message-urgent" 0))).trace.map (fun e => e.job.messageId)
      = ["message-2", "message-urgent"]
    ∧ (["message-urgent"] : List String) ≠ ["message-2", "message-urgent"] := by
  refine ⟨?_, ?_, ?_⟩ <;> decide

/-- C9, amended: passing urgency `IMMEDIATE` to `addJob` changes nothing
beyond immediately starting the added job out of band at enqueue time: the
persisted row is the same reset row as in the `STANDARD` case, the only
extra dispatch is of the added job itself, and in every scheduling pass
afterwards the job's selection priority is determined solely by visible-set
membership and `receivedAt` — the priority comparator is a function of
exactly that key. -/
theorem c9_urgency_frame (p : ManagerParams) (st : ManagerState) (j : Job) :
    addJobWithUrgency p st j Urgency.STANDARD = persistJob st j
    ∧ addJobWithUrgency p st j Urgency.IMMEDIATE
        = handleJobResult p (startJob (persistJob st j) (resetJob j)) (resetJob j)
    ∧ (addJobWithUrgency p st j Urgency.IMMEDIATE).trace
        = st.trace ++ [⟨resetJob j, st.now⟩]
    ∧ (st.store.any (fun r => decide (r.ident = j.ident)) = false →
        (persistJob st j).store = st.store ++ [resetJob j])
    ∧ (∀ vis a b, prioLe vis a b
        = prioKeyLe ⟨isVisible vis a, a.receivedAt⟩ ⟨isVisible vis b, b.receivedAt⟩) := by
  refine ⟨rfl, rfl, ?_, ?_, fun vis a b => rfl⟩
  · show (dispatchOne p (persistJob st j) (resetJob j)).trace = _
    rw [dispatchOne_trace]
    rfl
  · intro hnone
    unfold persistJob upsertJob
    rw [hnone]
    rfl

/-- Witness for the amended C9 at the counterexample's scenario. -/
theorem c9_urgency_frame_witness :
    ((initState [testJob "message-2" 2] [] 0).store.any
        (fun r => decide (r.ident = (testJob "message-urgent" 0).ident)) = false)
    ∧ addJobWithUrgency finishedParams (initState [testJob "message-2" 2] [] 0)
        (testJob "message-urgent" 0) Urgency.STANDARD
      = persistJob (initState [testJob "message-2" 2] [] 0)
          (testJob "message-urgent" 0)
    ∧ (addJobWithUrgency finishedParams (initState [testJob "message-2" 2] [] 0)
        (testJob "message-urgent" 0) Urgency.IMMEDIATE).trace
      = [⟨resetJob (testJob "message-urgent" 0), 0⟩]
    ∧ (persistJob (initState [testJob "message-2" 2] [] 0)
        (testJob "message-urgent" 0)).store
      = [testJob "message-2" 2] ++ [resetJob (testJob "message-urgent" 0)] := by
  have hnone : ((initState [testJob "message-2" 2] [] 0).store.any
      (fun r => decide (r.ident = (testJob "message-urgent" 0).ident)) = false) := by
    decide
  have h := c9_urgency_frame finishedParams (initState [testJob "message-2" 2] [] 0)
    (testJob "message-urgent" 0)
  exact ⟨hnone, h.1, h.2.2.1, h.2.2.2.1 hnone⟩

end AttachmentDownload
